import Mathlib

/-!
# Verification of the lox-rs tree-walking interpreter

A shallow embedding, in Lean 4, of the resolver / environment / evaluator
triad of the `lox-rs` interpreter, together with theorems checking the
natural-language specification against the code.

Modelling conventions:
* Rust `HashMap<String, _>` values are modelled as association lists with
  insert-overwrite semantics (`alistInsert`); only `insert`/`get` are used
  by the source, for which association lists are observationally identical.
* `Rc<RefCell<Environment>>` and `Rc<RefCell<Instance>>` are modelled as
  addresses (natural-number indices) into heaps carried in the interpreter
  state; `Rc::new` is heap allocation (append), `borrow_mut` mutation is a
  heap update at the given address.
* `f64` number payloads are modelled as `Int`; no claim under verification
  depends on floating-point behaviour.
* Rust panics (`expect`, `unwrap`, `unreachable!`) are modelled as the
  `Err.fatal` error; running out of recursion fuel (a Lean artifact used
  to make the evaluator total) is the distinct `Err.fuel`.
* The evaluator and resolver mutate their state in place and report errors
  through `Result`; this is modelled with `EStateM`, whose error results
  carry the (mutated) state, exactly like a Rust `&mut self` method that
  returns `Err`.
The lexer and parser are outside the verified core (spec section 1); all
definitions start from the parsed AST (`Stmt`/`Expr`).
-/

namespace LoxRs

/-- `token.rs` / `Literal`. -/
inductive Lit where
  | str (s : String)
  | num (n : Int)
  | bool (b : Bool)
  | null
deriving DecidableEq

/-- `token.rs` / `TokenType` (payload-free view of the literal/identifier
variants keeps the payloads, exactly as in the source). -/
inductive TokenType where
  | eof
  | bar
  | invalid
  | openParenthesis
  | closeParenthesis
  | openBrace
  | closeBrace
  | coma
  | dot
  | minus
  | plus
  | star
  | divide
  | modulo
  | semicolon
  | bang
  | bangEquals
  | less
  | lessEquals
  | greater
  | greaterEquals
  | compare
  | assign
  | comment
  | ifT
  | elseT
  | falseT
  | trueT
  | varT
  | whileT
  | forT
  | andT
  | orT
  | breakT
  | continueT
  | functionT
  | returnT
  | classT
  | inherit
  | superT
  | thisT
  | nullT
  | printT
  | arrow
  | literal (l : Lit)
  | identifier (s : String)
deriving DecidableEq

/-- `token.rs` / `Token`. -/
structure Token where
  tokenType : TokenType
  line : Nat
  start : Nat
  «end» : Nat
deriving DecidableEq

/-- `resolver.rs` / `VarRef`. -/
structure VarRef where
  token : Token
  name : String
deriving DecidableEq

/-- `VarRef::to_string`: `"{line}-{start}-{end}-{name}"`, the key of the
distance map. -/
def VarRef.toKey (v : VarRef) : String :=
  toString v.token.line ++ "-" ++ toString v.token.start ++ "-" ++
    toString v.token.«end» ++ "-" ++ v.name

mutual
/-- `expr.rs` / `Expr`. -/
inductive Expr where
  | binary (left : Expr) (operator : Token) (right : Expr)
  | literal (value : Lit)
  | unary (operator : Token) (expr : Expr)
  | grouping (expr : Expr)
  | var (name : String) (token : Token)
  | assign (name : String) (expr : Expr) (token : Token)
  | logical (left : Expr) (operator : Token) (right : Expr)
  | call (callee : Expr) (token : Token) (arguments : List Expr)
  | closure (params : List String) (body : List Stmt) (name : String) (token : Token)
  | get (name : String) (token : Token) (expr : Expr)
  | set (name : String) (token : Token) (value : Expr) (obj : Expr)
  | this (token : Token)
  | superE (token : Token) (methodName : String)

/-- `statement.rs` / `Stmt`. -/
inductive Stmt where
  | print (expr : Expr)
  | expr (expr : Expr)
  | var (name : String) (value : Option Expr)
  | block (stmts : List Stmt)
  | ifS (condition : Expr) (thenBody : Stmt) (elseBody : Option Stmt)
  | whileS (condition : Expr) (body : Stmt)
  | breakS (token : Token)
  | continueS (token : Token)
  | function (params : List String) (body : List Stmt) (name : String) (token : Token)
  | classS (name : String) (token : Token) (members : List Stmt) (superclass : Option Expr)
  | ret (token : Token) (value : Option Expr)
end

mutual
/-- `runtime_value.rs` / `Value`.  `Instance` and environment references are
heap addresses (see module header). -/
inductive Value where
  | function (f : Func)
  | str (s : String)
  | num (n : Int)
  | boolean (b : Bool)
  | classV (c : ClassD)
  | instanceV (addr : Nat)
  | null

/-- `function.rs` / `Function`. -/
inductive Func where
  | native (arity : Nat) (body : Unit → Value)
  | standard (params : List String) (name : String) (body : List Stmt)
      (token : Token) (this : Option Nat) (closure : Nat)

/-- `class.rs` / `Class`. -/
inductive ClassD where
  | mk (name : String) (properties : List (String × Value))
      (methods : List (String × Func)) (superclass : Option ClassD)
end

def ClassD.name : ClassD → String
  | .mk n _ _ _ => n

def ClassD.properties : ClassD → List (String × Value)
  | .mk _ p _ _ => p

def ClassD.methods : ClassD → List (String × Func)
  | .mk _ _ m _ => m

def ClassD.superclass : ClassD → Option ClassD
  | .mk _ _ _ s => s

/-- `class.rs` / `Instance`: its class plus its own property map. -/
structure Instance where
  classD : ClassD
  properties : List (String × Value)

/-- `environment.rs` / `Environment`: one frame of the scope chain.
`enclosing` is an `Option` heap address. -/
structure EnvFrame where
  values : List (String × Value)
  enclosing : Option Nat

/-- `error.rs` / `ErrorType`. -/
inductive ErrorType where
  | stringNotClosed
  | unexpectedCharacter
  | unparsableExpression
  | expectedOpenParenthesis
  | expectedCloseParenthesis
  | expectedCloseBar
  | unclosedParenthesis
  | expectedOperator
  | expectedUnaryOperator
  | expectedSemicolon
  | wrongType
  | expectedIdentifier
  | expectedAssign
  | undefinedVariable
  | invalidAssignment
  | expectedBlockEnd
  | expectedBlockStart
  | notAllowedOutsideLoop
  | maximumArguments
  | valueNotCallable
  | expectedArrow
  | invalidNumberOfArguments
  | cantUseVariableInItsInitializer
  | returnE (v : Value)
  | valueNotInstance
  | propertyDoesntExist
  | cantInheritFromItself
  | canOnlyInheritFromClass
  | dotAfterSuper
  | methodNotFound
  | cantUseSuper
  | cantUseThis

/-- `error.rs` / `Error` (token + kind), extended with the two
model-artifact outcomes: Rust panics (`fatal`) and fuel exhaustion. -/
inductive Err where
  | runtime (token : Token) (errorType : ErrorType)
  | fatal (msg : String)
  | fuel

/-! ## Association-list model of `HashMap` -/

/-- `HashMap::get`. -/
def alistGet {α : Type} (l : List (String × α)) (k : String) : Option α :=
  match l with
  | [] => none
  | (k', v) :: rest => if k' = k then some v else alistGet rest k

/-- `HashMap::insert` (overwrite), discarding the returned old value. -/
def alistInsert {α : Type} (l : List (String × α)) (k : String) (v : α) :
    List (String × α) :=
  match l with
  | [] => [(k, v)]
  | (k', v') :: rest =>
    if k' = k then (k, v) :: rest else (k', v') :: alistInsert rest k v

/-! ## Interpreter state

`Interpreter` (interpreter.rs) owns the current environment pointer, the
distance map and the control-flow `State` flags; the two heaps hold every
`Rc<RefCell<Environment>>` / `Rc<RefCell<Instance>>` ever created. -/

structure InterpState where
  envs : List EnvFrame
  instances : List Instance
  env : Nat
  distances : List (String × Nat)
  shouldContinue : Bool
  shouldBreak : Bool
  shouldReturn : Bool
  insideCall : Bool
  output : List String

abbrev InterpM := EStateM Err InterpState

/-- `error()` helper of `error.rs`: build an `Err` result from a token. -/
def throwRt {α : Type} (token : Token) (t : ErrorType) : InterpM α :=
  throw (.runtime token t)

/-! ### `State` flag methods (interpreter.rs) -/

/-- `State::will_return`: true (and clears the flag) only when
`should_return && inside_call`. -/
def willReturn : InterpM Bool := do
  let s ← get
  if s.shouldReturn && s.insideCall then
    set { s with shouldReturn := false }
    pure true
  else
    pure false

/-- `State::enter_call`. -/
def enterCall : InterpM Unit :=
  modify fun s => { s with insideCall := true }

/-- `State::exit_call`: clears `should_return` and `inside_call`. -/
def exitCall : InterpM Unit :=
  modify fun s => { s with shouldReturn := false, insideCall := false }

/-- `State::will_break`: reads and clears `should_break`. -/
def willBreak : InterpM Bool := do
  let s ← get
  set { s with shouldBreak := false }
  pure s.shouldBreak

/-- `State::will_continue`: reads and clears `should_continue`. -/
def willContinue : InterpM Bool := do
  let s ← get
  set { s with shouldContinue := false }
  pure s.shouldContinue

/-! ### Environment operations (environment.rs), over the env heap -/

/-- Dereference an environment address.  Addresses are only ever created by
allocation, so the default is never reached on states arising from runs. -/
def frameAt (envs : List EnvFrame) (a : Nat) : EnvFrame :=
  envs.getD a ⟨[], none⟩

/-- `Environment::get` at a heap address: look in that frame only. -/
def envGet (envs : List EnvFrame) (a : Nat) (name : String) : Option Value :=
  alistGet (frameAt envs a).values name

/-- The `for _ in 1..distance` loop body of `Environment::ancestor`: advance
along the enclosing link when there is one, otherwise stay put. -/
def ancestorLoop (envs : List EnvFrame) (a : Nat) : Nat → Nat
  | 0 => a
  | k + 1 =>
    match (frameAt envs a).enclosing with
    | some e => ancestorLoop envs e k
    | none => ancestorLoop envs a k

/-- `Environment::ancestor`: take the enclosing frame (panicking — `none` —
when there is none), then run the loop `distance - 1` times. -/
def ancestor? (envs : List EnvFrame) (a : Nat) (distance : Nat) : Option Nat :=
  match (frameAt envs a).enclosing with
  | none => none
  | some e => some (ancestorLoop envs e (distance - 1))

/-- `Environment::get_at`; the outer `Option` is the `ancestor` panic. -/
def getAt? (envs : List EnvFrame) (a : Nat) (name : String) (distance : Nat) :
    Option (Option Value) :=
  if distance = 0 then some (envGet envs a name)
  else (ancestor? envs a distance).map fun anc => envGet envs anc name

/-- `Environment::get_deep`: walk the whole chain outward.  The fuel is a
Lean totality artifact; chains are acyclic because `enclosing` always
points to a previously allocated frame, so `envs.length` steps suffice. -/
def getDeepGo (envs : List EnvFrame) (name : String) : Nat → Nat → Option Value
  | _, 0 => none
  | a, fuel + 1 =>
    match alistGet (frameAt envs a).values name with
    | some v => some v
    | none =>
      match (frameAt envs a).enclosing with
      | some e => getDeepGo envs name e fuel
      | none => none

def getDeep (envs : List EnvFrame) (a : Nat) (name : String) : Option Value :=
  getDeepGo envs name a envs.length

/-- `Environment::define_or_update` on the frame at address `a`
(insert/overwrite in that frame only), returning the previous value. -/
def defineOrUpdateAt (a : Nat) (name : String) (v : Value) :
    InterpM (Option Value) := do
  let s ← get
  let f := frameAt s.envs a
  let old := alistGet f.values name
  set { s with envs := s.envs.set a { f with values := alistInsert f.values name v } }
  pure old

/-- `Rc::new(RefCell::new(env))`: allocate a frame, returning its address. -/
def allocEnv (f : EnvFrame) : InterpM Nat := do
  let s ← get
  set { s with envs := s.envs ++ [f] }
  pure s.envs.length

/-- `Rc::new(RefCell::new(instance))`. -/
def allocInstance (i : Instance) : InterpM Nat := do
  let s ← get
  set { s with instances := s.instances ++ [i] }
  pure s.instances.length

/-- Dereference an instance address. -/
def instanceAt (insts : List Instance) (a : Nat) : Instance :=
  insts.getD a ⟨.mk "" [] [] none, []⟩

/-- `ancestor` inside the interpreter monad: `expect` panics. -/
def ancestorM (a : Nat) (distance : Nat) : InterpM Nat := do
  let s ← get
  match ancestor? s.envs a distance with
  | none => throw (.fatal "Trying to access environment that does not exist")
  | some anc => pure anc

/-- `Environment::assign_at` on the current heap. -/
def assignAt (a : Nat) (name : String) (v : Value) (distance : Nat) :
    InterpM (Option Value) := do
  if distance > 0 then
    let anc ← ancestorM a distance
    defineOrUpdateAt anc name v
  else
    defineOrUpdateAt a name v

/-- `get_at` in the monad (panics propagate as `Err.fatal`). -/
def getAtM (a : Nat) (name : String) (distance : Nat) : InterpM (Option Value) := do
  let s ← get
  match getAt? s.envs a name distance with
  | none => throw (.fatal "Trying to access environment that does not exist")
  | some r => pure r

/-! ### Value helpers (runtime_value.rs) -/

/-- `Value::new(&Literal)`. -/
def Value.ofLit : Lit → Value
  | .num n => .num n
  | .str s => .str s
  | .null => .null
  | .bool b => .boolean b

/-- `Value::to_bool`. -/
def Value.toBool : Value → Bool
  | .str s => s.utf8ByteSize > 0
  | .boolean b => b
  | .null => false
  | .classV _ => true
  | .num _ => true
  | .function _ => true
  | .instanceV _ => true

/-- `Function::to_string`. -/
def Func.toName : Func → String
  | .native _ _ => "<native function>"
  | .standard _ name _ _ _ _ => "<" ++ name ++ " function>"

/-- `Display for Value` (`{}` on an `f64` is abstracted as `Int` printing;
instances print via the heap, as `instance.borrow().to_string()` does). -/
def valueToString (insts : List Instance) : Value → String
  | .str s => s
  | .num n => toString n
  | .boolean b => toString b
  | .function f => f.toName
  | .null => "null"
  | .classV c => c.name
  | .instanceV a => (instanceAt insts a).classD.name ++ " instance"

/-- `Class::find_method`: own methods first, then the superclass chain. -/
def ClassD.findMethod : ClassD → String → Option Func
  | .mk _ _ methods superclass, name =>
    match alistGet methods name with
    | some f => some f
    | none =>
      match superclass with
      | some sc => sc.findMethod name
      | none => none

/-- `Function::bind`. -/
def Func.bind : Func → Nat → Func
  | .standard params name body token _ closure, inst =>
      .standard params name body token (some inst) closure
  | f, _ => f

/-- `Instance::get_super`. -/
def Instance.getSuper (i : Instance) : Option ClassD :=
  i.classD.superclass

/-- `visit_binary`'s operator dispatch on two already-evaluated operands
(interpreter.rs lines 152-209), as a pure function.  String ordering
compares `String::len()`, i.e. the UTF-8 byte length. -/
def applyBinary (operator : Token) (a b : Value) : Except Err Value :=
  match operator.tokenType with
  | .plus =>
    match a, b with
    | .num a, .num b => .ok (.num (a + b))
    | .str a, .str b => .ok (.str (a ++ b))
    | _, _ => .error (.runtime operator .wrongType)
  | .minus =>
    match a, b with
    | .num a, .num b => .ok (.num (a - b))
    | _, _ => .error (.runtime operator .wrongType)
  | .modulo =>
    match a, b with
    | .num a, .num b => .ok (.num (a % b))
    | _, _ => .error (.runtime operator .wrongType)
  | .star =>
    match a, b with
    | .num a, .num b => .ok (.num (a * b))
    | _, _ => .error (.runtime operator .wrongType)
  | .divide =>
    match a, b with
    | .num a, .num b => .ok (.num (a / b))
    | _, _ => .error (.runtime operator .wrongType)
  | .bangEquals =>
    match a, b with
    | .num a, .num b => .ok (.boolean (a ≠ b))
    | .str a, .str b => .ok (.boolean (a ≠ b))
    | .boolean a, .boolean b => .ok (.boolean (a ≠ b))
    | .null, .null => .ok (.boolean false)
    | _, _ => .error (.runtime operator .wrongType)
  | .compare =>
    match a, b with
    | .num a, .num b => .ok (.boolean (a = b))
    | .str a, .str b => .ok (.boolean (a = b))
    | .boolean a, .boolean b => .ok (.boolean (a = b))
    | .null, .null => .ok (.boolean true)
    | _, _ => .error (.runtime operator .wrongType)
  | .less =>
    match a, b with
    | .num a, .num b => .ok (.boolean (a < b))
    | .str a, .str b => .ok (.boolean (a.utf8ByteSize < b.utf8ByteSize))
    | _, _ => .error (.runtime operator .wrongType)
  | .lessEquals =>
    match a, b with
    | .num a, .num b => .ok (.boolean (a ≤ b))
    | .str a, .str b => .ok (.boolean (a.utf8ByteSize ≤ b.utf8ByteSize))
    | _, _ => .error (.runtime operator .wrongType)
  | .greater =>
    match a, b with
    | .num a, .num b => .ok (.boolean (a > b))
    | .str a, .str b => .ok (.boolean (a.utf8ByteSize > b.utf8ByteSize))
    | _, _ => .error (.runtime operator .wrongType)
  | .greaterEquals =>
    match a, b with
    | .num a, .num b => .ok (.boolean (a ≥ b))
    | .str a, .str b => .ok (.boolean (a.utf8ByteSize ≥ b.utf8ByteSize))
    | _, _ => .error (.runtime operator .wrongType)
  | _ => .error (.fatal "unreachable")

/-! ### Evaluator (interpreter.rs, function.rs, class.rs)

All mutually recursive pieces take a fuel argument (first) and spend one
unit per call; `Err.fuel` marks exhaustion, an artifact that never occurs
in the finite runs below. -/

/-- `Interpreter::get_distance` + `lookup_variable`. -/
def lookupVariable (var : VarRef) (token : Token) : InterpM Value := do
  let s ← get
  let distance := alistGet s.distances var.toKey
  let v ← getAtM s.env var.name (distance.getD 0)
  match v with
  | some val => pure val
  | none => throwRt token .undefinedVariable

/-- `Instance::get`: own properties first, else bind a found method to a
freshly allocated clone of the instance (`Rc::new(RefCell::new(self.clone()))`). -/
def instanceGet (inst : Instance) (name : String) (tok : Token) : InterpM Value :=
  match alistGet inst.properties name with
  | some v => pure v
  | none =>
    match inst.classD.findMethod name with
    | some f => do
        let a ← allocInstance inst
        pure (.function (f.bind a))
    | none => throwRt tok .propertyDoesntExist

/-- `Instance::set`: insert into the instance's own property map. -/
def instanceSet (a : Nat) (name : String) (v : Value) : InterpM Unit := do
  let s ← get
  let inst := instanceAt s.instances a
  set { s with instances :=
    s.instances.set a { inst with properties := alistInsert inst.properties name v } }

/-- Run an action, reifying its outcome (the Rust
`let result = match ... ; self.state.exit_call(); result` pattern). -/
def captureValue (m : InterpM Value) : InterpM (Except Err Value) := fun st =>
  match m st with
  | .ok v st' => .ok (.ok v) st'
  | .error e st' => .ok (.error e) st'

def ofExceptV : Except Err Value → InterpM Value
  | .ok v => pure v
  | .error e => throw e

/-- The `args.zip(params)` parameter-binding loop of `Function::call`. -/
def bindParams (f : EnvFrame) : List Value → List String → EnvFrame
  | a :: as, n :: ns =>
      bindParams { f with values := alistInsert f.values n a } as ns
  | _, _ => f

mutual

/-- `Interpreter::evaluate` / the `ExprVisitor` impl. -/
def evalExpr (fuel : Nat) (e : Expr) : InterpM Value :=
  if _hfuel : fuel = 0 then throw .fuel else
    match e with
    | .binary l op r => do
        let a ← evalExpr (fuel - 1) l
        let b ← evalExpr (fuel - 1) r
        ofExceptV (applyBinary op a b)
    | .literal v => pure (Value.ofLit v)
    | .unary op ex => do
        let v ← evalExpr (fuel - 1) ex
        match op.tokenType with
        | .minus =>
          match v with
          | .num n => pure (.num (n * (-1)))
          | _ => throwRt op .wrongType
        | .bang => pure (.boolean (!v.toBool))
        | _ => throw (.fatal "unreachable")
    | .grouping ex => evalExpr (fuel - 1) ex
    | .var name tok => lookupVariable ⟨tok, name⟩ tok
    | .assign name ex tok => do
        let v ← evalExpr (fuel - 1) ex
        let s ← get
        match alistGet s.distances (VarRef.toKey ⟨tok, name⟩) with
        | some dist => do
            let old ← assignAt s.env name v dist
            match old with
            | some val => pure val
            | none => throwRt tok .undefinedVariable
        | none => throwRt tok .undefinedVariable
    | .logical l op r => do
        let leftVal ← evalExpr (fuel - 1) l
        let rightVal ← evalExpr (fuel - 1) r
        match op.tokenType with
        | .orT => pure (if leftVal.toBool then leftVal else rightVal)
        | .andT => pure (.boolean (leftVal.toBool && rightVal.toBool))
        | _ => pure rightVal
    | .call callee tok arguments => do
        let calleeV ← evalExpr (fuel - 1) callee
        let args ← collectArgs (fuel - 1) arguments
        match calleeV with
        | .function f => do
            enterCall
            match args with
            | .error err => throw err
            | .ok vals => do
                let r ← captureValue (funcCall (fuel - 1) f vals)
                exitCall
                ofExceptV r
        | .classV c =>
            match args with
            | .error err => throw err
            | .ok vals => do
                let r ← captureValue (classCall (fuel - 1) c vals)
                exitCall
                ofExceptV r
        | _ => do
            exitCall
            throwRt tok .valueNotCallable
    | .closure params body name tok => do
        let s ← get
        pure (.function (.standard params name body tok none s.env))
    | .get name tok ex => do
        let obj ← evalExpr (fuel - 1) ex
        match obj with
        | .instanceV a => do
            let s ← get
            instanceGet (instanceAt s.instances a) name tok
        | _ => throwRt tok .valueNotInstance
    | .set name tok valueE objE => do
        let inst ← evalExpr (fuel - 1) objE
        match inst with
        | .instanceV a => do
            let v ← evalExpr (fuel - 1) valueE
            instanceSet a name v
            pure inst
        | _ => throwRt tok .valueNotInstance
    | .this tok => do
        let s ← get
        match getDeep s.envs s.env "this" with
        | some v => pure v
        | none => throwRt tok .undefinedVariable
    | .superE tok methodName => do
        let s ← get
        match getDeep s.envs s.env "super" with
        | some sv =>
          match sv with
          | .classV sc =>
            match sc.findMethod methodName with
            | some method => do
                let s2 ← get
                match getDeep s2.envs s2.env "this" with
                | some (.instanceV ia) => pure (.function (method.bind ia))
                | some _ => throw (.fatal "as_instance unwrap")
                | none => throw (.fatal "get_deep this unwrap")
            | none => throwRt tok .methodNotFound
          | _ => throw (.fatal "as_class unwrap")
        | none => throwRt tok .undefinedVariable
termination_by fuel
decreasing_by all_goals omega

/-- The eager `arguments.iter().map(evaluate).collect::<Result<Vec<_>>>()`
of `visit_call`: evaluates arguments left to right, stopping at the first
error, which is reified (the `?` on it fires later, inside the match arm). -/
def collectArgs (fuel : Nat) (es : List Expr) : InterpM (Except Err (List Value)) :=
  if _hfuel : fuel = 0 then throw .fuel else
    match es with
    | [] => pure (.ok [])
    | a :: rest => fun st =>
    match evalExpr (fuel - 1) a st with
    | .error e st' => .ok (.error e) st'
    | .ok v st' =>
      match collectArgs (fuel - 1) rest st' with
      | .ok r st'' => .ok (r.map fun vs => v :: vs) st''
      | .error e st'' => .error e st''
termination_by fuel
decreasing_by all_goals omega

/-- `Function::call`.  The local `Environment::from(closure)` is built
before the arity check; it is allocated (`Rc::new`) only after the check
and the `this`/`super`/parameter bindings. -/
def funcCall (fuel : Nat) (f : Func) (args : List Value) : InterpM Value :=
  if _hfuel : fuel = 0 then throw .fuel else
    match f with
    | .native _ body => pure (body ())
    | .standard params _name body tok this closure => do
      let env0 : EnvFrame := ⟨[], some closure⟩
      if params.length ≠ args.length then
        throwRt tok .invalidNumberOfArguments
      else do
        let env1 ←
          match this with
          | some instAddr => do
              let s ← get
              let f1 := { env0 with
                values := alistInsert env0.values "this" (.instanceV instAddr) }
              match (instanceAt s.instances instAddr).getSuper with
              | some sc =>
                  pure { f1 with values := alistInsert f1.values "super" (.classV sc) }
              | none => pure f1
          | none => pure env0
        let env2 := bindParams env1 args params
        let a ← allocEnv env2
        executeBlock (fuel - 1) body a
termination_by fuel
decreasing_by all_goals omega

/-- `Class::call`: allocate the instance (class + copy of the class's
properties), then run `constructor` bound to it when present. -/
def classCall (fuel : Nat) (c : ClassD) (args : List Value) : InterpM Value :=
  if _hfuel : fuel = 0 then throw .fuel else do
      let a ← allocInstance ⟨c, c.properties⟩
      match alistGet c.methods "constructor" with
      | some ctor => do
          let _ ← funcCall (fuel - 1) (ctor.bind a) args
          pure (.instanceV a)
      | none => pure (.instanceV a)
termination_by fuel
decreasing_by all_goals omega

/-- The member loop of `Class::new`: `var` members are evaluated in the
current environment into the property table, `fn` members become methods
closing over the current environment. -/
def classMembers (fuel : Nat) (members : List Stmt) (props : List (String × Value))
    (methods : List (String × Func)) :
    InterpM (List (String × Value) × List (String × Func)) :=
  if _hfuel : fuel = 0 then throw .fuel else
    match members with
    | [] => pure (props, methods)
    | m :: rest =>
      match m with
    | .var name valueOpt => do
        let v ← evalExpr (fuel - 1) (valueOpt.getD (.literal .null))
        classMembers (fuel - 1) rest (alistInsert props name v) methods
    | .function params body name tok => do
        let s ← get
        classMembers (fuel - 1) rest props
          (alistInsert methods name (.standard params name body tok none s.env))
    | _ => classMembers (fuel - 1) rest props methods
termination_by fuel
decreasing_by all_goals omega

/-- `Class::new`. -/
def classNew (fuel : Nat) (name : String) (members : List Stmt)
    (superclass : Option ClassD) : InterpM ClassD :=
  if _hfuel : fuel = 0 then throw .fuel else do
      let (props, methods) ← classMembers (fuel - 1) members [] []
      pure (.mk name props methods superclass)
termination_by fuel
decreasing_by all_goals omega

/-- The `StmtVisitor` impl of `Interpreter`. -/
def execStmt (fuel : Nat) (st : Stmt) : InterpM Value :=
  if _hfuel : fuel = 0 then throw .fuel else
    match st with
    | .print e => do
        let v ← evalExpr (fuel - 1) e
        modify fun s => { s with output := s.output ++ [valueToString s.instances v] }
        pure .null
    | .expr e => evalExpr (fuel - 1) e
    | .var name valueOpt => do
        let v ←
          match valueOpt with
          | some e => evalExpr (fuel - 1) e
          | none => pure Value.null
        let s ← get
        let _ ← defineOrUpdateAt s.env name v
        pure v
    | .block stmts => do
        let s ← get
        let a ← allocEnv ⟨[], some s.env⟩
        executeBlock (fuel - 1) stmts a
    | .ifS cond thenB elseB => do
        let c ← evalExpr (fuel - 1) cond
        if c.toBool then execStmt (fuel - 1) thenB
        else
          match elseB with
          | some st2 => execStmt (fuel - 1) st2
          | none => pure .null
    | .whileS cond body => whileLoop (fuel - 1) cond body
    | .breakS _ => do
        modify fun s => { s with shouldBreak := true }
        pure .null
    | .continueS _ => do
        modify fun s => { s with shouldContinue := true }
        pure .null
    | .function params body name tok => do
        let s ← get
        let f := Value.function (.standard params name body tok none s.env)
        let _ ← defineOrUpdateAt s.env name f
        pure f
    | .classS name tok members superclass => do
        let s ← get
        let _ ← defineOrUpdateAt s.env name .null
        let scOpt ←
          match superclass with
          | some scE => do
              let v ← evalExpr (fuel - 1) scE
              match v with
              | .classV sc => pure (some sc)
              | _ => throwRt tok .canOnlyInheritFromClass
          | none => pure none
        let c ← classNew (fuel - 1) name members scOpt
        let s2 ← get
        let _ ← defineOrUpdateAt s2.env name (.classV c)
        pure .null
    | .ret _ valueOpt => do
        let v ←
          match valueOpt with
          | some e => evalExpr (fuel - 1) e
          | none => pure Value.null
        modify fun s => { s with shouldReturn := true }
        pure v
termination_by fuel
decreasing_by all_goals omega

/-- The body of `visit_while_stmt`'s `loop`. -/
def whileLoop (fuel : Nat) (cond : Expr) (body : Stmt) : InterpM Value :=
  if _hfuel : fuel = 0 then throw .fuel else do
      let c ← evalExpr (fuel - 1) cond
      if c.toBool then do
        let b ← willBreak
        if b then pure .null
        else do
          let _ ← execStmt (fuel - 1) body
          whileLoop (fuel - 1) cond body
      else pure .null
termination_by fuel
decreasing_by all_goals omega

/-- The statement loop of `Interpreter::interpret`: before each statement
the flags are checked (and consumed) in the order
`will_continue() || will_return() || should_break`, short-circuiting. -/
def interpretLoop (fuel : Nat) (stmts : List Stmt) (last : Option Value) :
    InterpM (Option Value) :=
  if _hfuel : fuel = 0 then throw .fuel else
    match stmts with
    | [] => pure last
    | stmt :: rest => do
      let c ← willContinue
      if c then pure last
      else do
        let r ← willReturn
        if r then pure last
        else do
          let s ← get
          if s.shouldBreak then pure last
          else do
            let v ← execStmt (fuel - 1) stmt
            interpretLoop (fuel - 1) rest (some v)
termination_by fuel
decreasing_by all_goals omega

/-- `Interpreter::interpret`. -/
def interpret (fuel : Nat) (stmts : List Stmt) : InterpM Value :=
  if _hfuel : fuel = 0 then throw .fuel else do
      let last ← interpretLoop (fuel - 1) stmts none
      pure (last.getD .null)
termination_by fuel
decreasing_by all_goals omega

/-- `Interpreter::execute_block`: swap in the given environment, interpret,
swap back (the restore is skipped when interpretation errors, exactly as
the `?` in the source skips it). -/
def executeBlock (fuel : Nat) (statements : List Stmt) (envAddr : Nat) :
    InterpM Value :=
  if _hfuel : fuel = 0 then throw .fuel else do
      let s ← get
      let prev := s.env
      set { s with env := envAddr }
      let val ← interpret (fuel - 1) statements
      modify fun s2 => { s2 with env := prev }
      pure val
termination_by fuel
decreasing_by all_goals omega

end

/-! ## Resolver (resolver.rs)

State: the scope chain (`LinkedList<HashMap<String, bool>>`; modelled with
the list HEAD as the innermost scope, i.e. the list back), the
`ResolverState` flags, and the interpreter's distance map, which
`Resolver::resolve_distance` writes through `&mut Interpreter`. -/

/-- `resolver.rs` / `ClassType`. -/
inductive ClassType where
  | subclass
  | classC
deriving DecidableEq

structure ResolveSt where
  scopes : List (List (String × Bool))
  currentClass : Option ClassType
  insideLoop : Bool
  distances : List (String × Nat)

abbrev ResM := EStateM Err ResolveSt

/-- The resolver's local `error` helper. -/
def rError {α : Type} (token : Token) (t : ErrorType) : ResM α :=
  throw (.runtime token t)

/-- `ResolverState::is_inside_loop`. -/
def isInsideLoop (token : Token) : ResM Unit := do
  let s ← get
  if !s.insideLoop then rError token .notAllowedOutsideLoop
  else pure ()

/-- The scope scan of `Resolver::resolve_distance`
(`scopes.iter().rev().enumerate()`, innermost first): index of the first
scope containing the name. -/
def findDepth : List (List (String × Bool)) → String → Option Nat
  | [], _ => none
  | scope :: rest, name =>
    if (alistGet scope name).isSome then some 0
    else (findDepth rest name).map (· + 1)

/-- `Resolver::resolve_distance` + `Interpreter::resolve_distance`:
record the depth of the first scope holding the name (no-op when none). -/
def resolveDistance (v : VarRef) : ResM Unit := do
  let s ← get
  match findDepth s.scopes v.name with
  | some depth => set { s with distances := alistInsert s.distances v.toKey depth }
  | none => pure ()

/-- `Resolver::begin_scope`. -/
def beginScope : ResM Unit :=
  modify fun s => { s with scopes := [] :: s.scopes }

/-- `Resolver::end_scope` (`pop_back`). -/
def endScope : ResM Unit :=
  modify fun s => { s with scopes := s.scopes.tail }

/-- `Resolver::declare`: reserve the name (absent → declared) in the
innermost scope; a no-op when already present or when there is no scope. -/
def declare (name : String) : ResM Unit := do
  let s ← get
  match s.scopes with
  | [] => pure ()
  | scope :: rest =>
    if (alistGet scope name).isSome then pure ()
    else set { s with scopes := alistInsert scope name false :: rest }

/-- `Resolver::define`: mark the name ready in the innermost scope. -/
def define (name : String) : ResM Unit := do
  let s ← get
  match s.scopes with
  | [] => pure ()
  | scope :: rest => set { s with scopes := alistInsert scope name true :: rest }

/-- The `declare`/`define` loop over parameters in `resolve_function`. -/
def declareDefineParams : List String → ResM Unit
  | [] => pure ()
  | p :: rest => do
      declare p
      define p
      declareDefineParams rest

/-- `self.scopes.back_mut().unwrap().insert(name, true)` (used for
`super` and `this` in `visit_class_stmt`); `unwrap` panics on `None`. -/
def insertIntoBackScope (name : String) : ResM Unit := do
  let s ← get
  match s.scopes with
  | [] => throw (.fatal "unwrap on empty scopes")
  | scope :: rest => set { s with scopes := alistInsert scope name true :: rest }

mutual

/-- The resolver's `ExprVisitor` impl.  The fuel argument (first) is a
Lean totality artifact shared with the evaluator's style; the Rust walk is
plainly structural and `Err.fuel` never occurs for sufficient fuel. -/
def resolveExpr : Nat → Expr → ResM Unit
  | 0, _ => throw .fuel
  | fuel + 1, e =>
    match e with
    | .binary l _ r => do
        resolveExpr fuel l
        resolveExpr fuel r
    | .literal _ => pure ()
    | .unary _ ex => resolveExpr fuel ex
    | .grouping ex => resolveExpr fuel ex
    | .var name tok => do
        let s ← get
        match s.scopes with
        | scope :: _ =>
          match alistGet scope name with
          | some isReady =>
            if !isReady then throw (.runtime tok .cantUseVariableInItsInitializer)
            else resolveDistance ⟨tok, name⟩
          | none => resolveDistance ⟨tok, name⟩
        | [] => resolveDistance ⟨tok, name⟩
    | .assign name ex tok => do
        resolveExpr fuel ex
        resolveDistance ⟨tok, name⟩
    | .logical l _ r => do
        resolveExpr fuel l
        resolveExpr fuel r
    | .call callee _ args => do
        resolveExpr fuel callee
        resolveExprs fuel args
    | .closure params body _ _ => resolveFunction fuel params body
    | .get _ _ ex => resolveExpr fuel ex
    | .set _ _ value obj => do
        resolveExpr fuel value
        resolveExpr fuel obj
    | .this tok => do
        let s ← get
        if s.currentClass.isNone then rError tok .cantUseThis
        else resolveDistance ⟨tok, "this"⟩
    | .superE tok _ => do
        let s ← get
        match s.currentClass with
        | some .subclass => resolveDistance ⟨tok, "super"⟩
        | _ => rError tok .cantUseSuper

/-- The argument loop of the resolver's `visit_call`. -/
def resolveExprs : Nat → List Expr → ResM Unit
  | 0, _ => throw .fuel
  | _ + 1, [] => pure ()
  | fuel + 1, e :: rest => do
      resolveExpr fuel e
      resolveExprs fuel rest

/-- The resolver's `StmtVisitor` impl. -/
def resolveStmt : Nat → Stmt → ResM Unit
  | 0, _ => throw .fuel
  | fuel + 1, st =>
    match st with
    | .print e => resolveExpr fuel e
    | .expr e => resolveExpr fuel e
    | .var name valueOpt => do
        declare name
        (match valueOpt with
         | some e => resolveExpr fuel e
         | none => pure ())
        define name
    | .block stmts => do
        beginScope
        resolveStmtsE fuel stmts
        endScope
    | .ifS cond thenB elseB => do
        resolveExpr fuel cond
        resolveStmt fuel thenB
        match elseB with
        | some st2 => resolveStmt fuel st2
        | none => pure ()
    | .whileS cond body => do
        modify fun s => { s with insideLoop := true }
        resolveExpr fuel cond
        resolveStmt fuel body
        modify fun s => { s with insideLoop := false }
    | .breakS tok => isInsideLoop tok
    | .continueS tok => isInsideLoop tok
    | .function params body name _ => do
        declare name
        define name
        resolveFunction fuel params body
    | .classS name _tok members superclass => do
        declare name
        define name
        (match superclass with
         | some sc => do
            modify fun s => { s with currentClass := some .subclass }
            match sc with
            | .var scName scTok =>
              if scName = name then rError scTok .cantInheritFromItself
              else do
                resolveExpr fuel (.var scName scTok)
                insertIntoBackScope "super"
            | _ => throw (.fatal "Expected Expr Var")
         | none => modify fun s => { s with currentClass := some .classC })
        beginScope
        insertIntoBackScope "this"
        resolveMembers fuel members
        endScope
        modify fun s => { s with currentClass := none }
    | .ret _ valueOpt =>
        match valueOpt with
        | some e => resolveExpr fuel e
        | none => pure ()

/-- The member loop of the resolver's `visit_class_stmt`: only `fn`
members are resolved (via `as_function`). -/
def resolveMembers : Nat → List Stmt → ResM Unit
  | 0, _ => throw .fuel
  | _ + 1, [] => pure ()
  | fuel + 1, m :: rest => do
      (match m with
       | .function params body _ _ => resolveFunction fuel params body
       | _ => pure ())
      resolveMembers fuel rest

/-- `Resolver::resolve_function`. -/
def resolveFunction : Nat → List String → List Stmt → ResM Unit
  | 0, _, _ => throw .fuel
  | fuel + 1, params, body => do
      beginScope
      declareDefineParams params
      resolveStmtsE fuel body
      endScope

/-- `Resolver::resolve_stmts`' statement loop: resolve each statement,
collecting (not aborting on) per-statement errors. -/
def resolveStmtsGo : Nat → List Stmt → ResolveSt → List Err × ResolveSt
  | 0, _, s => ([.fuel], s)
  | _ + 1, [], s => ([], s)
  | fuel + 1, stmt :: rest, s =>
    match resolveStmt fuel stmt s with
    | .ok _ s' => resolveStmtsGo fuel rest s'
    | .error e s' =>
      let (es, s'') := resolveStmtsGo fuel rest s'
      (e :: es, s'')

/-- `resolve_stmts` as used with `?` inside the resolver itself, where
`From<Vec<Error>> for Error` keeps only the first collected error. -/
def resolveStmtsE : Nat → List Stmt → ResM Unit
  | 0, _ => throw .fuel
  | fuel + 1, stmts => fun s =>
    match resolveStmtsGo fuel stmts s with
    | ([], s') => .ok () s'
    | (e :: _, s') => .error e s'

end

/-- `Resolver::resolve_stmts`: `Ok(())` or all collected errors. -/
def resolveStmts (fuel : Nat) (stmts : List Stmt) (s : ResolveSt) :
    Except (List Err) Unit × ResolveSt :=
  match resolveStmtsGo fuel stmts s with
  | ([], s') => (.ok (), s')
  | (es, s') => (.error es, s')

/-- `Resolver::new`: a single "global"-like scope, no class, not in a loop,
empty distance map (the interpreter's map starts empty). -/
def initResolveSt : ResolveSt :=
  { scopes := [[]], currentClass := none, insideLoop := false, distances := [] }

/-- `Interpreter::new`: a globals frame holding `clock`, and the working
environment enclosing it. -/
def initState (distances : List (String × Nat)) : InterpState :=
  { envs := [⟨[("clock", .function (.native 0 fun _ => .num 100))], none⟩,
             ⟨[], some 0⟩],
    instances := [], env := 1, distances := distances,
    shouldContinue := false, shouldBreak := false, shouldReturn := false,
    insideCall := false, output := [] }

/-- `lib.rs` / `run_code`, from the parsed AST on (lexer and parser are
outside the verified core): resolve, and only when no resolution error
occurred, interpret.  The final interpreter state is returned so that the
output sink is observable. -/
def runCode (fuel : Nat) (stmts : List Stmt) :
    Except (List Err) Unit × InterpState :=
  let (errs, rs) := resolveStmtsGo fuel stmts initResolveSt
  match errs with
  | [] =>
    match interpret fuel stmts (initState rs.distances) with
    | .ok _ st => (.ok (), st)
    | .error e st => (.error [e], st)
  | es => (.error es, initState rs.distances)

/-- The printed output of a run. -/
def runOutput (fuel : Nat) (stmts : List Stmt) : List String :=
  (runCode fuel stmts).2.output

/-- Output of interpreting with an explicitly given distance map (used to
compare a recorded distance against the actual frame separation). -/
def interpOutput (fuel : Nat) (stmts : List Stmt)
    (dists : List (String × Nat)) : List String :=
  match interpret fuel stmts (initState dists) with
  | .ok _ st => st.output
  | .error _ st => st.output

/-! ## Helper lemmas -/

theorem alistGet_insert_self {α : Type} (l : List (String × α)) (k : String)
    (v : α) : alistGet (alistInsert l k v) k = some v := by
  induction l with
  | nil => simp [alistInsert, alistGet]
  | cons hd tl ih =>
    obtain ⟨k', v'⟩ := hd
    by_cases h : k' = k
    · simp [alistInsert, alistGet, h]
    · simp [alistInsert, alistGet, h, ih]

theorem alistGet_insert_ne {α : Type} (l : List (String × α)) (k k' : String)
    (v : α) (h : k' ≠ k) :
    alistGet (alistInsert l k v) k' = alistGet l k' := by
  induction l with
  | nil => simp [alistInsert, alistGet, Ne.symm h]
  | cons hd tl ih =>
    obtain ⟨k₀, v₀⟩ := hd
    by_cases h₀ : k₀ = k
    · subst h₀
      simp [alistInsert, alistGet, Ne.symm h]
    · by_cases h₁ : k₀ = k'
      · simp [alistInsert, alistGet, h₀, h₁, h]
      · simp [alistInsert, alistGet, h₀, h₁, ih]

theorem listGetD_set_ne {α : Type} (l : List α) (i j : Nat) (x d : α)
    (h : j ≠ i) : (l.set i x).getD j d = l.getD j d := by
  induction l generalizing i j with
  | nil => simp [List.set]
  | cons hd tl ih =>
    cases i with
    | zero =>
      cases j with
      | zero => exact absurd rfl h
      | succ j => simp [List.set]
    | succ i =>
      cases j with
      | zero => simp [List.set]
      | succ j => simpa [List.set] using ih i j (by omega)

theorem listGetD_set_self {α : Type} (l : List α) (i : Nat) (x d : α)
    (h : i < l.length) : (l.set i x).getD i d = x := by
  induction l generalizing i with
  | nil => simp at h
  | cons hd tl ih =>
    cases i with
    | zero => simp [List.set]
    | succ i => simpa [List.set] using ih i (by simpa using h)

/-- `instanceSet` succeeds and only rewrites the targeted slot. -/
theorem instanceSet_eq (a : Nat) (k : String) (v : Value) (st : InterpState) :
    instanceSet a k v st = .ok ()
      { st with instances :=
          st.instances.set a (Instance.mk (instanceAt st.instances a).classD
            (alistInsert (instanceAt st.instances a).properties k v)) } := by
  rfl

theorem instanceAt_set_ne (insts : List Instance) (a a' : Nat) (i : Instance)
    (h : a' ≠ a) : instanceAt (insts.set a i) a' = instanceAt insts a' :=
  listGetD_set_ne insts a a' i _ h

theorem instanceAt_set_self (insts : List Instance) (a : Nat) (i : Instance)
    (h : a < insts.length) : instanceAt (insts.set a i) a = i :=
  listGetD_set_self insts a i _ h

/-- With fuel left, evaluating a literal yields its value. -/
theorem evalExpr_literal (fuel : Nat) (v : Lit) :
    evalExpr (fuel + 1) (.literal v) = pure (Value.ofLit v) := by
  rw [evalExpr.eq_def]
  rfl

/-- With fuel left, executing `return <literal>;` yields the literal's value
and sets only the `should_return` flag. -/
theorem execStmt_ret_literal (fuel : Nat) (tok : Token) (v : Lit)
    (st : InterpState) :
    execStmt (fuel + 1 + 1) (.ret tok (some (.literal v))) st
      = .ok (Value.ofLit v) { st with shouldReturn := true } := by
  have e1 : fuel + 1 + 1 - 1 = fuel + 1 := rfl
  have h1 : (fuel + 1 + 1 = 0) = False := by simp
  simp only [execStmt, e1, h1, dite_false, evalExpr_literal, bind, EStateM.bind,
    pure, EStateM.pure, modify, modifyGet, MonadStateOf.modifyGet,
    EStateM.modifyGet]

/-- Unfolding equation of the `interpret` statement loop on an empty list. -/
theorem interpretLoop_nil (fuel : Nat) (last : Option Value) :
    interpretLoop (fuel + 1) [] last = pure last := by
  rw [interpretLoop.eq_def]
  rfl

/-- Unfolding equation of the `interpret` statement loop on a non-empty
list: the flag checks in source order, then the statement, then the rest. -/
theorem interpretLoop_cons (fuel : Nat) (stmt : Stmt) (rest : List Stmt)
    (last : Option Value) :
    interpretLoop (fuel + 1) (stmt :: rest) last = (do
      let c ← willContinue
      if c then pure last
      else do
        let r ← willReturn
        if r then pure last
        else do
          let s ← get
          if s.shouldBreak then pure last
          else do
            let v ← execStmt fuel stmt
            interpretLoop fuel rest (some v)) := by
  rw [interpretLoop.eq_def]
  rfl

/-! ## C9 -/

/-- C9: for every two String values `a` and `b`, evaluating `a < b`,
`a <= b`, `a > b`, `a >= b` returns the Boolean of the corresponding
numeric comparison applied to the lengths of `a` and `b` (`String::len()`,
the UTF-8 byte length) — not a lexicographic content comparison, as the
final conjuncts demonstrate on `"b" < "aa"`, where length order (true) and
lexicographic order (false) disagree. -/
theorem c9_string_ordering_compares_lengths (a b : String)
    (li s0 e0 : Nat) (fuel : Nat) (st : InterpState) :
    (applyBinary ⟨.less, li, s0, e0⟩ (.str a) (.str b)
      = .ok (.boolean (a.utf8ByteSize < b.utf8ByteSize))) ∧
    (applyBinary ⟨.lessEquals, li, s0, e0⟩ (.str a) (.str b)
      = .ok (.boolean (a.utf8ByteSize ≤ b.utf8ByteSize))) ∧
    (applyBinary ⟨.greater, li, s0, e0⟩ (.str a) (.str b)
      = .ok (.boolean (a.utf8ByteSize > b.utf8ByteSize))) ∧
    (applyBinary ⟨.greaterEquals, li, s0, e0⟩ (.str a) (.str b)
      = .ok (.boolean (a.utf8ByteSize ≥ b.utf8ByteSize))) ∧
    (evalExpr (fuel + 2)
        (.binary (.literal (.str a)) ⟨.less, li, s0, e0⟩ (.literal (.str b))) st
      = .ok (.boolean (a.utf8ByteSize < b.utf8ByteSize)) st) ∧
    (applyBinary ⟨.less, li, s0, e0⟩ (.str "b") (.str "aa")
      = .ok (.boolean true)) ∧
    ¬ ("b".data < "aa".data) := by
  refine ⟨rfl, rfl, rfl, rfl, ?_, rfl, by decide⟩
  have h2 : ¬(fuel + 2 = 0) := by omega
  have h1 : ¬(fuel + 1 = 0) := by omega
  have hsub : fuel + 2 - 1 = fuel + 1 := rfl
  simp only [evalExpr, hsub, h2, h1, dite_false, applyBinary, ofExceptV, bind,
    EStateM.bind, pure, EStateM.pure, Value.ofLit]

/-! ## C6 -/

/-- C6: calling a user-defined function with an argument count different
from its parameter count fails with `InvalidNumberOfArguments` and leaves
the interpreter state untouched — in particular no statement of the body
is executed (no output, no environment or instance change). -/
theorem c6_arity_mismatch_rejects_before_body (fuel : Nat)
    (params : List String) (name : String) (body : List Stmt) (tok : Token)
    (thisA : Option Nat) (closure : Nat) (args : List Value)
    (st : InterpState) (h : params.length ≠ args.length) :
    funcCall (fuel + 1) (.standard params name body tok thisA closure) args st
      = .error (.runtime tok .invalidNumberOfArguments) st := by
  have h1 : ¬(fuel + 1 = 0) := by omega
  simp only [funcCall, h1, dite_false, throwRt]
  rw [if_pos h]
  rfl

/-- Witness for C6 at a concrete input: a 2-parameter function applied to
zero arguments. -/
theorem c6_arity_mismatch_rejects_before_body_witness :
    (["a", "b"].length ≠ ([] : List Value).length) ∧
    funcCall 1 (.standard ["a", "b"] "f" [] ⟨.identifier "f", 0, 0, 0⟩ none 1)
        [] (initState [])
      = .error (.runtime ⟨.identifier "f", 0, 0, 0⟩ .invalidNumberOfArguments)
          (initState []) :=
  ⟨by decide,
   c6_arity_mismatch_rejects_before_body 0 ["a", "b"] "f" []
     ⟨.identifier "f", 0, 0, 0⟩ none 1 [] (initState []) (by decide)⟩

/-! ## C3 -/

/-- A one-frame state with `y = 1` and a resolved distance for the `y`
assignment site, used to observe the right operand's side effect. -/
def c3DemoState : InterpState :=
  { envs := [⟨[("y", .num 1)], none⟩], instances := [], env := 0,
    distances := [("5-0-0-y", 0)],
    shouldContinue := false, shouldBreak := false, shouldReturn := false,
    insideCall := false, output := [] }

/-- C3: `visit_logical` evaluates BOTH operands before dispatching on the
operator (no short-circuit); `or` then returns the left operand's value if
it is truthy and otherwise the right operand's value, while `and` returns
the Boolean conjunction of the two operands' truthiness.  The last
conjunct exhibits the eagerness observably: with a truthy left operand,
the assignment in the right operand still fires. -/
theorem c3_logical_eager_both_operands :
    (∀ (fuel : Nat) (l r : Expr) (li s0 e0 : Nat) (st : InterpState),
      evalExpr (fuel + 1) (.logical l ⟨.orT, li, s0, e0⟩ r) st =
        (do
          let a ← evalExpr fuel l
          let b ← evalExpr fuel r
          pure (if a.toBool then a else b)) st) ∧
    (∀ (fuel : Nat) (l r : Expr) (li s0 e0 : Nat) (st : InterpState),
      evalExpr (fuel + 1) (.logical l ⟨.andT, li, s0, e0⟩ r) st =
        (do
          let a ← evalExpr fuel l
          let b ← evalExpr fuel r
          pure (Value.boolean (a.toBool && b.toBool))) st) ∧
    evalExpr 9 (.logical (.literal (.bool true)) ⟨.orT, 0, 0, 0⟩
        (.assign "y" (.literal (.num 2)) ⟨.identifier "y", 5, 0, 0⟩)) c3DemoState
      = .ok (.boolean true) { c3DemoState with envs := [⟨[("y", .num 2)], none⟩] } := by
  refine ⟨fun fuel l r li s0 e0 st => ?_, fun fuel l r li s0 e0 st => ?_, ?_⟩
  · have h1 : ¬(fuel + 1 = 0) := by omega
    simp only [evalExpr, Nat.add_sub_cancel, h1, dite_false]
  · have h1 : ¬(fuel + 1 = 0) := by omega
    simp only [evalExpr, Nat.add_sub_cancel, h1, dite_false]
  · have ky : VarRef.toKey ⟨⟨.identifier "y", 5, 0, 0⟩, "y"⟩ = "5-0-0-y" := rfl
    simp [ky, c3DemoState, evalExpr, lookupVariable, assignAt, getAtM, ancestorM,
      defineOrUpdateAt, frameAt, envGet, getAt?, ancestor?, ancestorLoop,
      alistGet, alistInsert, Value.ofLit, Value.toBool, bind, EStateM.bind,
      pure, EStateM.pure, get, getThe, MonadStateOf.get, EStateM.get, set,
      EStateM.set, modify, modifyGet, MonadStateOf.modifyGet, EStateM.modifyGet,
      throw, throwThe, MonadExceptOf.throw, EStateM.throw, throwRt]

/-! ## C8 -/

/-- C8: `Instance::set` writes only into the targeted instance's own
property map (creating the key when absent), never touching its class or
any other instance; and `Class::call` seeds each new instance at a fresh
heap address with a copy of the class's property table, so siblings are
distinct heap slots. -/
theorem c8_instance_set_is_per_instance (st : InterpState) (a a' : Nat)
    (k k' : String) (v : Value) (fuel : Nat) (c : ClassD) (args : List Value)
    (ha : a < st.instances.length) (hne : a' ≠ a) (hk : k' ≠ k)
    (hctor : alistGet c.methods "constructor" = none) :
    ∃ st', instanceSet a k v st = .ok () st' ∧
      alistGet (instanceAt st'.instances a).properties k = some v ∧
      alistGet (instanceAt st'.instances a).properties k'
        = alistGet (instanceAt st.instances a).properties k' ∧
      (instanceAt st'.instances a).classD = (instanceAt st.instances a).classD ∧
      instanceAt st'.instances a' = instanceAt st.instances a' ∧
      classCall (fuel + 1) c args st
        = .ok (.instanceV st.instances.length)
            { st with instances := st.instances ++ [⟨c, c.properties⟩] } := by
  refine ⟨_, instanceSet_eq a k v st, ?_, ?_, ?_, ?_, ?_⟩
  · rw [instanceAt_set_self _ _ _ ha]
    exact alistGet_insert_self _ _ _
  · rw [instanceAt_set_self _ _ _ ha]
    exact alistGet_insert_ne _ _ _ _ hk
  · rw [instanceAt_set_self _ _ _ ha]
  · exact instanceAt_set_ne _ _ _ _ hne
  · have h1 : ¬(fuel + 1 = 0) := by omega
    simp only [classCall, h1, dite_false, allocInstance, hctor, bind,
      EStateM.bind, get, getThe, MonadStateOf.get, EStateM.get, set,
      EStateM.set, pure, EStateM.pure]

/-- Witness for C8 at a concrete input: two sibling instances of class
`C`; setting `p` on instance 0 leaves instance 1 and the class intact. -/
theorem c8_instance_set_is_per_instance_witness :
    ((0 : Nat) <
      ({ initState [] with
         instances := [⟨.mk "C" [] [] none, []⟩, ⟨.mk "C" [] [] none, []⟩]
       } : InterpState).instances.length) ∧
    ((1 : Nat) ≠ 0) ∧ ("q" ≠ "p") ∧
    (∃ st', instanceSet 0 "p" (.num 5)
        ({ initState [] with
           instances := [⟨.mk "C" [] [] none, []⟩, ⟨.mk "C" [] [] none, []⟩] })
        = .ok () st' ∧
      alistGet (instanceAt st'.instances 0).properties "p" = some (.num 5) ∧
      alistGet (instanceAt st'.instances 0).properties "q"
        = alistGet (instanceAt
            ({ initState [] with
               instances := [⟨.mk "C" [] [] none, []⟩, ⟨.mk "C" [] [] none, []⟩]
             } : InterpState).instances 0).properties "q" ∧
      (instanceAt st'.instances 0).classD
        = (instanceAt
            ({ initState [] with
               instances := [⟨.mk "C" [] [] none, []⟩, ⟨.mk "C" [] [] none, []⟩]
             } : InterpState).instances 0).classD ∧
      instanceAt st'.instances 1
        = instanceAt
            ({ initState [] with
               instances := [⟨.mk "C" [] [] none, []⟩, ⟨.mk "C" [] [] none, []⟩]
             } : InterpState).instances 1 ∧
      classCall 1 (.mk "C" [] [] none) []
          ({ initState [] with
             instances := [⟨.mk "C" [] [] none, []⟩, ⟨.mk "C" [] [] none, []⟩] })
        = .ok (.instanceV 2)
            { ({ initState [] with
                 instances := [⟨.mk "C" [] [] none, []⟩, ⟨.mk "C" [] [] none, []⟩]
               } : InterpState) with
              instances := [⟨.mk "C" [] [] none, []⟩, ⟨.mk "C" [] [] none, []⟩]
                ++ [⟨.mk "C" [] [] none, ([] : List (String × Value))⟩] }) :=
  ⟨by decide, by decide, by decide,
   c8_instance_set_is_per_instance
     ({ initState [] with
        instances := [⟨.mk "C" [] [] none, []⟩, ⟨.mk "C" [] [] none, []⟩] })
     0 1 "p" "q" (.num 5) 0 (.mk "C" [] [] none) []
     (by decide) (by decide) (by decide) rfl⟩

/-! ## C10 -/

/-- C10: when a property-get on an instance misses its own properties but
finds a method on its class chain, `Instance::get` returns the method
bound to a NEWLY allocated copy of the instance
(`Rc::new(RefCell::new(self.clone()))`), an address distinct from the
original; a later property write through that fresh address (what an
assignment to `this` inside the retrieved method performs) leaves the
instance at the original address unchanged. -/
theorem c10_method_bound_to_fresh_copy (st : InterpState) (a : Nat)
    (name : String) (tok : Token) (f : Func) (k : String) (v : Value)
    (ha : a < st.instances.length)
    (hown : alistGet (instanceAt st.instances a).properties name = none)
    (hm : (instanceAt st.instances a).classD.findMethod name = some f) :
    ∃ st', instanceGet (instanceAt st.instances a) name tok st
        = .ok (.function (f.bind st.instances.length)) st' ∧
      st'.instances = st.instances ++ [instanceAt st.instances a] ∧
      st.instances.length ≠ a ∧
      (∃ st'', instanceSet st.instances.length k v st' = .ok () st'' ∧
        instanceAt st''.instances a = instanceAt st.instances a) := by
  refine ⟨{ st with instances := st.instances ++ [instanceAt st.instances a] },
    ?_, rfl, by omega, ?_⟩
  · simp only [instanceGet, hown, hm, allocInstance, bind, EStateM.bind, get,
      getThe, MonadStateOf.get, EStateM.get, set, EStateM.set, pure, EStateM.pure]
  · refine ⟨_, instanceSet_eq _ _ _ _, ?_⟩
    rw [instanceAt_set_ne _ _ _ _ (by omega)]
    simp only [instanceAt]
    exact List.getD_append _ _ _ _ ha

/-- Witness for C10 at a concrete input: class `D` with method `m`; the
instance at address 0 yields `m` bound to fresh address 1, and a write
through address 1 leaves address 0 untouched. -/
theorem c10_method_bound_to_fresh_copy_witness :
    ((0 : Nat) <
      ({ initState [] with
         instances := [⟨.mk "D" [] [("m", .native 0 fun _ => .null)] none, []⟩]
       } : InterpState).instances.length) ∧
    (∃ st', instanceGet
        (instanceAt
          ({ initState [] with
             instances := [⟨.mk "D" [] [("m", .native 0 fun _ => .null)] none, []⟩]
           } : InterpState).instances 0) "m" ⟨.identifier "m", 0, 0, 0⟩
        ({ initState [] with
           instances := [⟨.mk "D" [] [("m", .native 0 fun _ => .null)] none, []⟩] })
        = .ok (.function ((Func.native 0 fun _ => .null).bind
            ({ initState [] with
               instances := [⟨.mk "D" [] [("m", .native 0 fun _ => .null)] none, []⟩]
             } : InterpState).instances.length)) st' ∧
      st'.instances
        = ({ initState [] with
             instances := [⟨.mk "D" [] [("m", .native 0 fun _ => .null)] none, []⟩]
           } : InterpState).instances
          ++ [instanceAt
                ({ initState [] with
                   instances := [⟨.mk "D" [] [("m", .native 0 fun _ => .null)] none, []⟩]
                 } : InterpState).instances 0] ∧
      (({ initState [] with
          instances := [⟨.mk "D" [] [("m", .native 0 fun _ => .null)] none, []⟩]
        } : InterpState).instances.length ≠ 0) ∧
      (∃ st'', instanceSet
          ({ initState [] with
             instances := [⟨.mk "D" [] [("m", .native 0 fun _ => .null)] none, []⟩]
           } : InterpState).instances.length "p" (.num 9) st' = .ok () st'' ∧
        instanceAt st''.instances 0
          = instanceAt
              ({ initState [] with
                 instances := [⟨.mk "D" [] [("m", .native 0 fun _ => .null)] none, []⟩]
               } : InterpState).instances 0)) :=
  ⟨by decide,
   c10_method_bound_to_fresh_copy
     ({ initState [] with
        instances := [⟨.mk "D" [] [("m", .native 0 fun _ => .null)] none, []⟩] })
     0 "m" ⟨.identifier "m", 0, 0, 0⟩ (.native 0 fun _ => .null) "p" (.num 9)
     (by decide) rfl rfl⟩

/-! ## C5: the environment chain and `ancestor` -/

/-- The address chain of enclosing frames starting at `a`: `a` itself,
then the addresses reached by following `enclosing` links to the top. -/
inductive IsChainAddrs (envs : List EnvFrame) : Nat → List Nat → Prop
  | base (a : Nat) (h : (frameAt envs a).enclosing = none) :
      IsChainAddrs envs a [a]
  | step (a b : Nat) (l : List Nat) (h : (frameAt envs a).enclosing = some b)
      (hl : IsChainAddrs envs b l) : IsChainAddrs envs a (a :: l)

theorem IsChainAddrs.head_eq {envs : List EnvFrame} {a : Nat} {l : List Nat}
    (h : IsChainAddrs envs a l) : ∃ t, l = a :: t := by
  cases h with
  | base => exact ⟨[], rfl⟩
  | step _ _ t => exact ⟨t, rfl⟩

theorem IsChainAddrs.ne_nil {envs : List EnvFrame} {a : Nat} {l : List Nat}
    (h : IsChainAddrs envs a l) : l ≠ [] := by
  obtain ⟨t, rfl⟩ := h.head_eq
  simp

/-- The `for _ in 1..distance` walk, on a frame whose chain is `l`: it
advances while links remain and then silently stays at the top frame, so
the result is the element of `l` at index `min k (l.length - 1)`. -/
theorem ancestorLoop_chain (envs : List EnvFrame) {b : Nat} {l : List Nat}
    (h : IsChainAddrs envs b l) :
    ∀ k, ancestorLoop envs b k = l.getD (min k (l.length - 1)) 0 := by
  induction h with
  | base a hnone =>
    intro k
    induction k with
    | zero => simp [ancestorLoop]
    | succ n ih => simpa [ancestorLoop, hnone] using ih
  | step a b' l' hsome htail ih =>
    intro k
    cases k with
    | zero => simp [ancestorLoop]
    | succ n =>
      obtain ⟨t, rfl⟩ := htail.head_eq
      have hlen : (b' :: t).length - 1 = t.length := by simp
      have hmin : min (n + 1) ((a :: b' :: t).length - 1)
          = min n ((b' :: t).length - 1) + 1 := by
        simp only [List.length_cons]
        omega
      simp only [ancestorLoop, hsome]
      rw [ih n, hmin]
      rfl

/-- C5 (amended): for `n ≥ 1`, `Environment::ancestor(n)` panics exactly
when the current frame has no enclosing frame at all; otherwise it walks
`min n (chain length)` enclosing links — exactly `n` links when
`n ≤ chain length`, and silently clamping at the outermost frame (instead
of failing fatally) when `n` exceeds the chain length. -/
theorem c5_ancestor_clamps_instead_of_panicking (envs : List EnvFrame)
    (a : Nat) (rest : List Nat) (n : Nat)
    (hch : IsChainAddrs envs a (a :: rest)) (hn : 1 ≤ n) :
    ((frameAt envs a).enclosing = none ↔ rest = []) ∧
    (rest = [] → ancestor? envs a n = none) ∧
    (∀ b l', rest = b :: l' →
      ancestor? envs a n = some (rest.getD (min n rest.length - 1) 0)) ∧
    (rest ≠ [] → n ≤ rest.length → ancestor? envs a n = some (rest.getD (n - 1) 0)) := by
  have hmain : ∀ b l', rest = b :: l' →
      ancestor? envs a n = some (rest.getD (min n rest.length - 1) 0) := by
    intro b l' hrest
    subst hrest
    cases hch with
    | step _ b₀ l₀ hsome htail =>
      simp only [ancestor?, hsome]
      rw [ancestorLoop_chain envs htail (n - 1)]
      have hidx : min (n - 1) ((b :: l').length - 1) = min n (b :: l').length - 1 := by
        simp only [List.length_cons]
        omega
      rw [hidx]
  have hiff : (frameAt envs a).enclosing = none ↔ rest = [] := by
    cases hch with
    | base _ hnone => simp [hnone]
    | step _ b₀ l₀ hsome htail =>
      obtain ⟨t, rfl⟩ := htail.head_eq
      simp [hsome]
  refine ⟨hiff, ?_, hmain, ?_⟩
  · intro hrest
    rw [ancestor?, hiff.mpr hrest]
  · intro hne hle
    obtain ⟨b, l', hrest⟩ := List.exists_cons_of_ne_nil hne
    rw [hmain b l' hrest]
    congr 2
    omega

/-- The two-frame heap used to refute C5 as stated: frame 1 encloses
frame 0, which is the top. -/
def c5Envs : List EnvFrame := [⟨[], none⟩, ⟨[], some 0⟩]

/-- C5 counterexample: from frame 1 the enclosing chain has length 1, so
by the claim `ancestor(2)` should fail fatally; instead the code silently
returns the outermost frame 0. -/
theorem c5_counterexample_no_panic_beyond_chain :
    IsChainAddrs c5Envs 1 [1, 0] ∧
    ([0] : List Nat).length < 2 ∧
    ancestor? c5Envs 1 2 = some 0 ∧
    ancestor? c5Envs 1 2 ≠ none :=
  ⟨.step 1 0 [0] rfl (.base 0 rfl), by decide, rfl, by decide⟩

/-- Witness for the amended C5 theorem at the concrete two-frame chain,
with `n = 1` inside the chain bound. -/
theorem c5_ancestor_clamps_instead_of_panicking_witness :
    (([0] : List Nat) ≠ []) ∧ ancestor? c5Envs 1 1 = some 0 :=
  ⟨by simp, by
    have h := c5_ancestor_clamps_instead_of_panicking c5Envs 1 [0] 1
      (.step 1 0 [0] rfl (.base 0 rfl)) (le_refl 1)
    exact h.2.2.2 (by simp) (by decide)⟩

/-! ## C4: the resolver's inside-loop flag -/

/-- A `break` after an inner nested loop, still lexically inside the outer
loop's body. -/
def c4NestedLoopProgram : List Stmt :=
  [ .whileS (.literal (.bool true))
      (.block [ .whileS (.literal (.bool false)) (.block []),
                .breakS ⟨.breakT, 3, 0, 5⟩ ]) ]

/-- A `break` inside a function declared inside a loop: not in an active
loop at run time. -/
def c4FunctionInLoopProgram : List Stmt :=
  [ .whileS (.literal (.bool true))
      (.block [ .function [] [ .breakS ⟨.breakT, 4, 0, 5⟩ ] "f"
                  ⟨.identifier "f", 4, 6, 7⟩ ]) ]

/-- C4 counterexample: the claim says `break` is reported exactly when it
occurs outside an active loop scope.  But (1) a `break` that follows an
inner nested loop inside an outer loop body — an active loop scope — IS
reported (`visit_while_stmt` resets the flag to `false`, not to its prior
value, when the inner loop finishes); and (2) a `break` inside a function
declared in a loop body is NOT reported (function boundaries do not clear
the flag), though no loop is active around it at run time. -/
theorem c4_counterexample_flag_reset_not_restored :
    (resolveStmts 64 c4NestedLoopProgram initResolveSt).1
      = .error [.runtime ⟨.breakT, 3, 0, 5⟩ .notAllowedOutsideLoop] ∧
    (resolveStmts 64 c4FunctionInLoopProgram initResolveSt).1 = .ok () := by
  exact ⟨rfl, rfl⟩

/-- C4 (amended): `visit_while_stmt` sets the inside-loop flag for the
duration of resolving a while body and afterwards resets it unconditionally
to `false` (not to its prior value); `break`/`continue` are reported with
the not-allowed-outside-loop error exactly when the flag is `false` at the
statement — which mis-fires after an inner nested loop and does not fire
inside functions declared in loops. -/
theorem c4_inside_loop_flag_set_then_cleared :
    (∀ (fuel : Nat) (cond : Expr) (body : Stmt) (st : ResolveSt),
      resolveStmt (fuel + 1) (.whileS cond body) st =
        ((do
          resolveExpr fuel cond
          resolveStmt fuel body
          modify fun s => { s with insideLoop := false }) : ResM Unit)
          { st with insideLoop := true }) ∧
    (∀ (fuel : Nat) (cond : Expr) (body : Stmt) (st st' : ResolveSt),
      resolveStmt (fuel + 1) (.whileS cond body) st = .ok () st' →
      st'.insideLoop = false) ∧
    (∀ (fuel : Nat) (tok : Token) (st : ResolveSt), st.insideLoop = false →
      resolveStmt (fuel + 1) (.breakS tok) st
        = .error (.runtime tok .notAllowedOutsideLoop) st) ∧
    (∀ (fuel : Nat) (tok : Token) (st : ResolveSt), st.insideLoop = true →
      resolveStmt (fuel + 1) (.breakS tok) st = .ok () st) ∧
    (∀ (fuel : Nat) (tok : Token) (st : ResolveSt), st.insideLoop = false →
      resolveStmt (fuel + 1) (.continueS tok) st
        = .error (.runtime tok .notAllowedOutsideLoop) st) ∧
    (∀ (fuel : Nat) (tok : Token) (st : ResolveSt), st.insideLoop = true →
      resolveStmt (fuel + 1) (.continueS tok) st = .ok () st) := by
  have hbreak : ∀ (fuel : Nat) (tok : Token) (st : ResolveSt),
      resolveStmt (fuel + 1) (.breakS tok) st
        = if st.insideLoop then .ok () st
          else .error (.runtime tok .notAllowedOutsideLoop) st := by
    intro fuel tok st
    show isInsideLoop tok st = _
    rw [isInsideLoop]
    cases h : st.insideLoop <;>
      simp only [bind, EStateM.bind, get, getThe, MonadStateOf.get, EStateM.get,
        h, Bool.not_false, Bool.not_true, if_true, if_false, rError, throw,
        throwThe, MonadExceptOf.throw, EStateM.throw, pure, EStateM.pure,
        ite_true, ite_false, Bool.false_eq_true, reduceIte]
  have hcont : ∀ (fuel : Nat) (tok : Token) (st : ResolveSt),
      resolveStmt (fuel + 1) (.continueS tok) st
        = if st.insideLoop then .ok () st
          else .error (.runtime tok .notAllowedOutsideLoop) st := by
    intro fuel tok st
    show isInsideLoop tok st = _
    rw [isInsideLoop]
    cases h : st.insideLoop <;>
      simp only [bind, EStateM.bind, get, getThe, MonadStateOf.get, EStateM.get,
        h, Bool.not_false, Bool.not_true, if_true, if_false, rError, throw,
        throwThe, MonadExceptOf.throw, EStateM.throw, pure, EStateM.pure,
        ite_true, ite_false, Bool.false_eq_true, reduceIte]
  refine ⟨fun fuel cond body st => rfl, ?_, ?_, ?_, ?_, ?_⟩
  · intro fuel cond body st st' hok
    have hok' : (EStateM.bind (resolveExpr fuel cond) fun _ =>
        EStateM.bind (resolveStmt fuel body) fun _ =>
          EStateM.modifyGet fun s => ((), { s with insideLoop := false }))
          { st with insideLoop := true } = .ok () st' := hok
    simp only [EStateM.bind, EStateM.modifyGet] at hok'
    split at hok'
    · split at hok'
      · cases hok'
        rfl
      · cases hok'
    · cases hok'
  · intro fuel tok st h
    rw [hbreak, h]
    rfl
  · intro fuel tok st h
    rw [hbreak, h]
    rfl
  · intro fuel tok st h
    rw [hcont, h]
    rfl
  · intro fuel tok st h
    rw [hcont, h]
    rfl
/-- Witness for the amended C4 theorem: `break` at top level (flag false)
is rejected with the not-allowed-outside-loop error. -/
theorem c4_inside_loop_flag_set_then_cleared_witness :
    resolveStmt 1 (.breakS ⟨.breakT, 0, 0, 0⟩) initResolveSt
      = .error (.runtime ⟨.breakT, 0, 0, 0⟩ .notAllowedOutsideLoop) initResolveSt :=
  c4_inside_loop_flag_set_then_cleared.2.2.1 0 ⟨.breakT, 0, 0, 0⟩ initResolveSt rfl

/-! ## C2: return semantics -/

/-- `fn g() { return 1; } fn f() { g(); return 2; var x = 5; } print f();`
— the body of `f` performs a nested call before its `return`. -/
def c2NestedCallProgram : List Stmt :=
  [ .function [] [ .ret ⟨.returnT, 1, 0, 0⟩ (some (.literal (.num 1))) ] "g"
      ⟨.identifier "g", 1, 3, 4⟩,
    .function []
      [ .expr (.call (.var "g" ⟨.identifier "g", 2, 0, 0⟩)
          ⟨.openParenthesis, 2, 1, 1⟩ []),
        .ret ⟨.returnT, 2, 3, 3⟩ (some (.literal (.num 2))),
        .var "x" (some (.literal (.num 5))) ] "f" ⟨.identifier "f", 2, 9, 9⟩,
    .print (.call (.var "f" ⟨.identifier "f", 3, 0, 0⟩)
      ⟨.openParenthesis, 3, 1, 1⟩ []) ]

/-- C2 counterexample: by the claim, `f()` must stop at `return 2` and
yield `2` even though `g()` ran first.  In fact the completed nested call
`g()` has cleared the boolean `inside_call` flag (`State::exit_call`), so
the `return 2` no longer stops the body: `var x = 5;` still executes and
the call yields `5`, the last statement's value — the program prints `5`,
not `2`. -/
theorem c2_counterexample_nested_call_defeats_return :
    runOutput 24 c2NestedCallProgram = ["5"] ∧
    runOutput 24 c2NestedCallProgram ≠ ["2"] := by
  have hres : resolveStmtsGo 24 c2NestedCallProgram initResolveSt
      = ([], { scopes := [[("g", true), ("f", true)]], currentClass := none,
               insideLoop := false,
               distances := [("2-0-0-g", 1), ("3-0-0-f", 0)] }) := rfl
  have kg : VarRef.toKey ⟨⟨.identifier "g", 2, 0, 0⟩, "g"⟩ = "2-0-0-g" := rfl
  have kf : VarRef.toKey ⟨⟨.identifier "f", 3, 0, 0⟩, "f"⟩ = "3-0-0-f" := rfl
  have o5 : toString (5 : Int) = "5" := rfl
  have hout : runOutput 24 c2NestedCallProgram = ["5"] := by
    simp only [runOutput, runCode, hres]
    simp [kg, kf, o5, c2NestedCallProgram, interpret, interpretLoop, execStmt, evalExpr, collectArgs,
      funcCall, classCall, classMembers, classNew, whileLoop, executeBlock,
      lookupVariable, instanceGet, instanceSet, captureValue, ofExceptV,
      bindParams, willReturn, willBreak, willContinue, enterCall, exitCall,
      throwRt, defineOrUpdateAt, allocEnv, allocInstance, instanceAt, frameAt,
      envGet, getAt?, ancestor?, ancestorLoop, getDeep, getDeepGo, assignAt,
      getAtM, ancestorM, alistGet, alistInsert, Value.ofLit, Value.toBool,
      valueToString, applyBinary, ClassD.findMethod, Func.bind,
      Instance.getSuper, ClassD.name, ClassD.properties, ClassD.methods,
      ClassD.superclass, Func.toName, initState, bind, EStateM.bind, pure, EStateM.pure,
      get, getThe, MonadStateOf.get, EStateM.get, set, EStateM.set, modify,
      modifyGet, MonadStateOf.modifyGet, EStateM.modifyGet, throw, throwThe,
      MonadExceptOf.throw, EStateM.throw]
  refine ⟨hout, ?_⟩
  rw [hout]
  decide

/-- `fn f() { return v; print "UNREACHED"; } print f();` -/
def c2SimpleReturnProgram (v : Lit) : List Stmt :=
  [ .function []
      [ .ret ⟨.returnT, 1, 0, 0⟩ (some (.literal v)),
        .print (.literal (.str "UNREACHED")) ] "f" ⟨.identifier "f", 1, 5, 5⟩,
    .print (.call (.var "f" ⟨.identifier "f", 2, 0, 0⟩)
      ⟨.openParenthesis, 2, 1, 1⟩ []) ]

/-- What `print` writes for a literal's value. -/
def litOutput : Lit → String
  | .str s => s
  | .num n => toString n
  | .bool b => toString b
  | .null => "null"

/-- C2 (amended): provided the function body has not completed a nested
call before the return, execution stops at the first executed `return`
and the call yields that value (the statement after the return never
runs); and a bare top-level `return` is a no-op signal that does not
abort the remaining program.  The third conjunct is the general law
behind the first: in any state with the flags clear and `inside_call`
set — as at the start of a body whose call is in progress and that has
completed no nested call — the statement loop on `return <literal>;`
followed by ARBITRARY remaining statements yields that literal's value
with environments, instances and output untouched (the remaining
statements never execute), only the flag book-keeping differing. -/
theorem c2_return_stops_body_without_nested_call :
    (∀ v : Lit, runOutput 24 (c2SimpleReturnProgram v) = [litOutput v]) ∧
    (∀ s : String,
      runOutput 24 [ .ret ⟨.returnT, 1, 0, 0⟩ (some (.literal .null)),
                     .print (.literal (.str s)) ] = [s]) ∧
    (∀ (fuel : Nat) (tok : Token) (v : Lit) (rest : List Stmt)
      (last : Option Value) (st : InterpState),
      st.shouldContinue = false → st.shouldReturn = false →
      st.shouldBreak = false → st.insideCall = true →
      interpretLoop (fuel + 1 + 1 + 1) (.ret tok (some (.literal v)) :: rest)
          last st
        = .ok (some (Value.ofLit v))
            (if rest.isEmpty then { st with shouldReturn := true }
             else { st with shouldReturn := false })) := by
  refine ⟨?_, ?_, ?_⟩
  · intro v
    have hres : resolveStmtsGo 24 (c2SimpleReturnProgram v) initResolveSt
        = ([], { scopes := [[("f", true)]], currentClass := none,
                 insideLoop := false, distances := [("2-0-0-f", 0)] }) := rfl
    have kf : VarRef.toKey ⟨⟨.identifier "f", 2, 0, 0⟩, "f"⟩ = "2-0-0-f" := rfl
    simp only [runOutput, runCode, hres]
    cases v <;>
      simp [kf, litOutput, c2SimpleReturnProgram, interpret, interpretLoop, execStmt, evalExpr, collectArgs,
      funcCall, classCall, classMembers, classNew, whileLoop, executeBlock,
      lookupVariable, instanceGet, instanceSet, captureValue, ofExceptV,
      bindParams, willReturn, willBreak, willContinue, enterCall, exitCall,
      throwRt, defineOrUpdateAt, allocEnv, allocInstance, instanceAt, frameAt,
      envGet, getAt?, ancestor?, ancestorLoop, getDeep, getDeepGo, assignAt,
      getAtM, ancestorM, alistGet, alistInsert, Value.ofLit, Value.toBool,
      valueToString, applyBinary, ClassD.findMethod, Func.bind,
      Instance.getSuper, ClassD.name, ClassD.properties, ClassD.methods,
      ClassD.superclass, Func.toName, initState, bind, EStateM.bind, pure, EStateM.pure,
      get, getThe, MonadStateOf.get, EStateM.get, set, EStateM.set, modify,
      modifyGet, MonadStateOf.modifyGet, EStateM.modifyGet, throw, throwThe,
      MonadExceptOf.throw, EStateM.throw]
  · intro s
    have hres : resolveStmtsGo 24
        [ .ret ⟨.returnT, 1, 0, 0⟩ (some (.literal .null)),
          .print (.literal (.str s)) ] initResolveSt
        = ([], { scopes := [[]], currentClass := none,
                 insideLoop := false, distances := [] }) := rfl
    simp only [runOutput, runCode, hres]
    simp [interpret, interpretLoop, execStmt, evalExpr, collectArgs,
      funcCall, classCall, classMembers, classNew, whileLoop, executeBlock,
      lookupVariable, instanceGet, instanceSet, captureValue, ofExceptV,
      bindParams, willReturn, willBreak, willContinue, enterCall, exitCall,
      throwRt, defineOrUpdateAt, allocEnv, allocInstance, instanceAt, frameAt,
      envGet, getAt?, ancestor?, ancestorLoop, getDeep, getDeepGo, assignAt,
      getAtM, ancestorM, alistGet, alistInsert, Value.ofLit, Value.toBool,
      valueToString, applyBinary, ClassD.findMethod, Func.bind,
      Instance.getSuper, ClassD.name, ClassD.properties, ClassD.methods,
      ClassD.superclass, Func.toName, initState, bind, EStateM.bind, pure, EStateM.pure,
      get, getThe, MonadStateOf.get, EStateM.get, set, EStateM.set, modify,
      modifyGet, MonadStateOf.modifyGet, EStateM.modifyGet, throw, throwThe,
      MonadExceptOf.throw, EStateM.throw]
  · intro fuel tok v rest last st hC hR hB hIC
    obtain ⟨envs, insts, env, dists, sc, sb, sr, ic, out⟩ := st
    have hC2 : sc = false := hC
    have hR2 : sr = false := hR
    have hB2 : sb = false := hB
    have hIC2 : ic = true := hIC
    subst hC2 hR2 hB2 hIC2
    cases rest with
    | nil =>
      simp [interpretLoop_cons, interpretLoop_nil, execStmt_ret_literal,
        willContinue, willReturn, bind, EStateM.bind, pure, EStateM.pure, get,
        getThe, MonadStateOf.get, EStateM.get, set, EStateM.set, modify,
        modifyGet, MonadStateOf.modifyGet, EStateM.modifyGet]
    | cons s2 rest2 =>
      simp [interpretLoop_cons, execStmt_ret_literal,
        willContinue, willReturn, bind, EStateM.bind, pure, EStateM.pure, get,
        getThe, MonadStateOf.get, EStateM.get, set, EStateM.set, modify,
        modifyGet, MonadStateOf.modifyGet, EStateM.modifyGet]

/-- Witness for the amended C2 theorem: in the initial state marked as
inside a call, the statement loop on `return 7;` yields value 7 with
`should_return` left set. -/
theorem c2_return_stops_body_without_nested_call_witness :
    ({ initState [] with insideCall := true } : InterpState).shouldContinue
        = false ∧
    interpretLoop (0 + 1 + 1 + 1)
        (.ret ⟨.returnT, 0, 0, 0⟩ (some (.literal (.num 7))) :: []) none
        { initState [] with insideCall := true }
      = .ok (some (Value.ofLit (.num 7)))
          (if ([] : List Stmt).isEmpty
           then { ({ initState [] with insideCall := true } : InterpState) with
                  shouldReturn := true }
           else { ({ initState [] with insideCall := true } : InterpState) with
                  shouldReturn := false }) :=
  ⟨rfl, c2_return_stops_body_without_nested_call.2.2 0 ⟨.returnT, 0, 0, 0⟩
    (.num 7) [] none { initState [] with insideCall := true } rfl rfl rfl rfl⟩

/-! ## C7: error collection and the resolve-then-evaluate gate -/

/-- C7: `resolve_stmts` collects the errors of all failing top-level
statements across the whole pass — after a statement errors, resolution
continues with the next statement and later errors are also surfaced (the
first conjunct shows two diagnostics from one run; the second is the
general continuation law) — and `run_code` does not proceed to evaluation
when at least one resolution error occurred: it returns the errors with
the interpreter still in its initial state (third conjunct). -/
theorem c7_errors_collected_and_evaluation_gated :
    ((resolveStmts 24 [ .breakS ⟨.breakT, 1, 0, 0⟩, .breakS ⟨.breakT, 2, 0, 0⟩ ]
        initResolveSt).1
      = .error [ .runtime ⟨.breakT, 1, 0, 0⟩ .notAllowedOutsideLoop,
                 .runtime ⟨.breakT, 2, 0, 0⟩ .notAllowedOutsideLoop ]) ∧
    (∀ (fuel : Nat) (stmt : Stmt) (rest : List Stmt) (st st1 : ResolveSt) (e : Err),
      resolveStmt fuel stmt st = .error e st1 →
      (resolveStmtsGo (fuel + 1) (stmt :: rest) st).1
        = e :: (resolveStmtsGo fuel rest st1).1) ∧
    (∀ (fuel : Nat) (stmts : List Stmt) (e : Err) (es : List Err) (rs : ResolveSt),
      resolveStmtsGo fuel stmts initResolveSt = (e :: es, rs) →
      runCode fuel stmts = (.error (e :: es), initState rs.distances)) := by
  refine ⟨rfl, ?_, ?_⟩
  · intro fuel stmt rest st st1 e h
    show (match resolveStmt fuel stmt st with
      | .ok _ s' => resolveStmtsGo fuel rest s'
      | .error e s' =>
        let (es, s'') := resolveStmtsGo fuel rest s'
        (e :: es, s'')).1 = _
    rw [h]
  · intro fuel stmts e es rs h
    simp only [runCode, h]

/-- Witness for C7 at a concrete input: a single top-level `break` errors
in resolution and `run_code` returns it without evaluating anything. -/
theorem c7_errors_collected_and_evaluation_gated_witness :
    runCode 24 [ .breakS ⟨.breakT, 1, 0, 0⟩ ]
      = (.error [ .runtime ⟨.breakT, 1, 0, 0⟩ .notAllowedOutsideLoop ],
         initState []) :=
  c7_errors_collected_and_evaluation_gated.2.2 24 [ .breakS ⟨.breakT, 1, 0, 0⟩ ]
    (.runtime ⟨.breakT, 1, 0, 0⟩ .notAllowedOutsideLoop) [] initResolveSt rfl

/-! ## C1: resolved distances vs. runtime frame separation -/

/-- `findDepth` (the scan of `resolve_distance`) returns the index of the
first scope containing the name, within bounds, with no earlier scope
containing it. -/
theorem findDepth_some {scopes : List (List (String × Bool))} {name : String}
    {d : Nat} (h : findDepth scopes name = some d) :
    d < scopes.length ∧ (alistGet (scopes.getD d []) name).isSome = true ∧
    ∀ e, e < d → (alistGet (scopes.getD e []) name).isSome = false := by
  induction scopes generalizing d with
  | nil => simp [findDepth] at h
  | cons scope rest ih =>
    rw [findDepth] at h
    by_cases hs : (alistGet scope name).isSome
    · rw [if_pos hs] at h
      cases h
      exact ⟨by simp, by simpa using hs, fun e he => absurd he (by omega)⟩
    · rw [if_neg hs] at h
      cases hf : findDepth rest name with
      | none => rw [hf] at h; cases h
      | some d' =>
        rw [hf] at h
        simp only [Option.map_some'] at h
        cases h
        obtain ⟨h1, h2, h3⟩ := ih hf
        refine ⟨by simpa using h1, by simpa using h2, ?_⟩
        intro e he
        cases e with
        | zero => simpa using hs
        | succ e => simpa using h3 e (by omega)

/-- Transfer a pointwise `Forall₂` relation to positional `getD` access. -/
theorem forall₂_getD {α β : Type} {R : α → β → Prop} :
    ∀ {l1 : List α} {l2 : List β}, List.Forall₂ R l1 l2 →
    ∀ {i : Nat} (d1 : α) (d2 : β), i < l1.length → R (l1.getD i d1) (l2.getD i d2) := by
  intro l1 l2 h
  induction h with
  | nil => intro i d1 d2 hi; simp at hi
  | cons hr _ ih =>
    intro i d1 d2 hi
    cases i with
    | zero => simpa using hr
    | succ i => simpa using ih d1 d2 (by simpa using hi)

/-- On a chain, `get_at` at an in-bounds distance reads exactly the frame
`d` links up. -/
theorem getAt?_chain {envs : List EnvFrame} {a : Nat} {addrs : List Nat}
    (hch : IsChainAddrs envs a addrs) (name : String) {d : Nat}
    (hd : d < addrs.length) :
    getAt? envs a name d = some (envGet envs (addrs.getD d 0) name) := by
  cases d with
  | zero =>
    obtain ⟨t, rfl⟩ := hch.head_eq
    simp [getAt?]
  | succ k =>
    cases hch with
    | base a hnone => simp at hd
    | step a b l hsome htail =>
      obtain ⟨t, rfl⟩ := htail.head_eq
      rw [getAt?, if_neg (by omega)]
      have hanc : ancestor? envs a (k + 1) = some (ancestorLoop envs b k) := by
        simp only [ancestor?, hsome, Nat.add_sub_cancel]
      rw [hanc, ancestorLoop_chain envs htail k]
      have hk : k ≤ t.length := by
        have h2 := hd
        rw [List.length_cons, List.length_cons] at h2
        omega
      have hmin : min k ((b :: t).length - 1) = k := by
        rw [List.length_cons]
        omega
      rw [hmin]
      rfl

/-- `var x = 7; { { print x; } }` — two nested blocks between the
reference and the declaration. -/
def c1BlockProgram : List Stmt :=
  [ .var "x" (some (.literal (.num 7))),
    .block [ .block [ .print (.var "x" ⟨.identifier "x", 9, 1, 2⟩) ] ] ]

/-- `var y = 3; fn h() { print y; } h();` — one function call frame
between the reference and the declaration. -/
def c1CallProgram : List Stmt :=
  [ .var "y" (some (.literal (.num 3))),
    .function [] [ .print (.var "y" ⟨.identifier "y", 5, 2, 3⟩) ] "h"
      ⟨.identifier "h", 5, 0, 0⟩,
    .expr (.call (.var "h" ⟨.identifier "h", 6, 0, 0⟩)
      ⟨.openParenthesis, 6, 1, 1⟩ []) ]

/-- C1 (amended): whenever the Resolver's scope chain is shape-aligned
with the Evaluator's environment chain — same number of frames, and each
scope holding exactly the names its runtime frame holds, which is how the
two walks line up for block statements and function-call frames — the
distance the Resolver records (`findDepth`, the scan of
`resolve_distance`) points to exactly the first chain frame holding the
name: `get_at` at that distance succeeds and reads that frame, and no
closer frame holds the name.  The invariant fails for class bodies (see
the counterexample): the Resolver pushes a dedicated `this` scope that the
Evaluator folds into the method call frame.  The last four conjuncts run
the aligned case end to end, both on doubly nested blocks (recorded
distance 2, the lookup prints the binding) and across a function call
frame (recorded distance 1, the lookup prints the binding). -/
theorem c1_distance_equals_frame_separation_when_aligned :
    (∀ (envs : List EnvFrame) (a : Nat) (addrs : List Nat)
      (scopes : List (List (String × Bool))) (name : String) (d : Nat),
      IsChainAddrs envs a addrs →
      List.Forall₂ (fun (scope : List (String × Bool)) (ad : Nat) =>
        ∀ k : String, (alistGet scope k).isSome = (envGet envs ad k).isSome)
        scopes addrs →
      findDepth scopes name = some d →
      d < addrs.length ∧
      getAt? envs a name d = some (envGet envs (addrs.getD d 0) name) ∧
      (envGet envs (addrs.getD d 0) name).isSome = true ∧
      (∀ e, e < d → envGet envs (addrs.getD e 0) name = none)) ∧
    ((resolveStmtsGo 24 c1BlockProgram initResolveSt).2.distances
      = [("9-1-2-x", 2)]) ∧
    runOutput 24 c1BlockProgram = ["7"] ∧
    ((resolveStmtsGo 24 c1CallProgram initResolveSt).2.distances
      = [("5-2-3-y", 1), ("6-0-0-h", 0)]) ∧
    runOutput 24 c1CallProgram = ["3"] := by
  refine ⟨?_, rfl, ?_, rfl, ?_⟩
  · intro envs a addrs scopes name d hch halign hd
    obtain ⟨hdlt, hsome, hnone⟩ := findDepth_some hd
    have hlen := halign.length_eq
    have hdlt' : d < addrs.length := hlen ▸ hdlt
    refine ⟨hdlt', getAt?_chain hch name hdlt', ?_, ?_⟩
    · have := forall₂_getD halign ([] : List (String × Bool)) 0 hdlt
      rw [← this name]
      exact hsome
    · intro e he
      have := forall₂_getD halign ([] : List (String × Bool)) 0
        (by omega : e < scopes.length)
      have hn := hnone e he
      rw [this name] at hn
      cases hko : envGet envs (addrs.getD e 0) name with
      | none => rfl
      | some v =>
        rw [hko] at hn
        simp at hn
  · have hres : resolveStmtsGo 24 c1BlockProgram initResolveSt
        = ([], { scopes := [[("x", true)]], currentClass := none,
                 insideLoop := false, distances := [("9-1-2-x", 2)] }) := rfl
    have kx : VarRef.toKey ⟨⟨.identifier "x", 9, 1, 2⟩, "x"⟩ = "9-1-2-x" := rfl
    have o7 : toString (7 : Int) = "7" := rfl
    simp only [runOutput, runCode, hres]
    simp [kx, o7, c1BlockProgram, interpret, interpretLoop, execStmt, evalExpr,
      collectArgs, funcCall, classCall, classMembers, classNew, whileLoop,
      executeBlock, lookupVariable, instanceGet, instanceSet, captureValue,
      ofExceptV, bindParams, willReturn, willBreak, willContinue, enterCall,
      exitCall, throwRt, defineOrUpdateAt, allocEnv, allocInstance, instanceAt,
      frameAt, envGet, getAt?, ancestor?, ancestorLoop, getDeep, getDeepGo,
      assignAt, getAtM, ancestorM, alistGet, alistInsert, Value.ofLit,
      Value.toBool, valueToString, applyBinary, ClassD.findMethod, Func.bind,
      Instance.getSuper, ClassD.name, ClassD.properties, ClassD.methods,
      ClassD.superclass, Func.toName, initState, bind, EStateM.bind, pure, EStateM.pure,
      get, getThe, MonadStateOf.get, EStateM.get, set, EStateM.set, modify,
      modifyGet, MonadStateOf.modifyGet, EStateM.modifyGet, throw, throwThe,
      MonadExceptOf.throw, EStateM.throw]
  · have hres : resolveStmtsGo 24 c1CallProgram initResolveSt
        = ([], { scopes := [[("y", true), ("h", true)]], currentClass := none,
                 insideLoop := false,
                 distances := [("5-2-3-y", 1), ("6-0-0-h", 0)] }) := rfl
    have ky : VarRef.toKey ⟨⟨.identifier "y", 5, 2, 3⟩, "y"⟩ = "5-2-3-y" := rfl
    have kh : VarRef.toKey ⟨⟨.identifier "h", 6, 0, 0⟩, "h"⟩ = "6-0-0-h" := rfl
    have o3 : toString (3 : Int) = "3" := rfl
    simp only [runOutput, runCode, hres]
    simp [ky, kh, o3, c1CallProgram, interpret, interpretLoop, execStmt, evalExpr,
      collectArgs, funcCall, classCall, classMembers, classNew, whileLoop,
      executeBlock, lookupVariable, instanceGet, instanceSet, captureValue,
      ofExceptV, bindParams, willReturn, willBreak, willContinue, enterCall,
      exitCall, throwRt, defineOrUpdateAt, allocEnv, allocInstance, instanceAt,
      frameAt, envGet, getAt?, ancestor?, ancestorLoop, getDeep, getDeepGo,
      assignAt, getAtM, ancestorM, alistGet, alistInsert, Value.ofLit,
      Value.toBool, valueToString, applyBinary, ClassD.findMethod, Func.bind,
      Instance.getSuper, ClassD.name, ClassD.properties, ClassD.methods,
      ClassD.superclass, Func.toName, initState, bind, EStateM.bind, pure, EStateM.pure,
      get, getThe, MonadStateOf.get, EStateM.get, set, EStateM.set, modify,
      modifyGet, MonadStateOf.modifyGet, EStateM.modifyGet, throw, throwThe,
      MonadExceptOf.throw, EStateM.throw]

/-- `var x = 1; class A { fn m() { return x; } } var a = A(); print a.m();`
— the reference to `x` sits inside a method body. -/
def c1ClassProgram : List Stmt :=
  [ .var "x" (some (.literal (.num 1))),
    .classS "A" ⟨.identifier "A", 2, 0, 0⟩
      [ .function []
          [ .ret ⟨.returnT, 2, 2, 2⟩ (some (.var "x" ⟨.identifier "x", 2, 4, 5⟩)) ]
          "m" ⟨.identifier "m", 2, 6, 6⟩ ] none,
    .var "a" (some (.call (.var "A" ⟨.identifier "A", 3, 0, 0⟩)
      ⟨.openParenthesis, 3, 1, 1⟩ [])),
    .print (.call (.get "m" ⟨.identifier "m", 4, 2, 2⟩
        (.var "a" ⟨.identifier "a", 4, 0, 0⟩))
      ⟨.openParenthesis, 4, 4, 4⟩ []) ]

/-- C1 counterexample: the Resolver succeeds on this program and records
distance 2 for the `x` reference in the method body (its walk passes the
method's parameter scope and the extra class scope holding `this`), but
at run time only ONE frame (the method call frame, which holds `this` and
the parameters together) separates the reference from the frame holding
`x`.  Consequently the evaluator's lookup walks one frame too far, into
the globals, and the run fails with `UndefinedVariable` — with the same
distance map patched to 1, the identical interpretation succeeds and
prints the binding's value `1`, exhibiting the true frame separation. -/
theorem c1_counterexample_class_body_extra_scope :
    (resolveStmts 30 c1ClassProgram initResolveSt).1 = .ok () ∧
    (resolveStmtsGo 30 c1ClassProgram initResolveSt).2.distances
      = [("2-4-5-x", 2), ("3-0-0-A", 0), ("4-0-0-a", 0)] ∧
    (runCode 30 c1ClassProgram).1
      = .error [.runtime ⟨.identifier "x", 2, 4, 5⟩ .undefinedVariable] ∧
    interpOutput 30 c1ClassProgram
      (alistInsert [("2-4-5-x", 2), ("3-0-0-A", 0), ("4-0-0-a", 0)] "2-4-5-x" 1)
      = ["1"] := by
  have hres : resolveStmtsGo 30 c1ClassProgram initResolveSt
      = ([], { scopes := [[("x", true), ("A", true), ("a", true)]],
               currentClass := none, insideLoop := false,
               distances := [("2-4-5-x", 2), ("3-0-0-A", 0), ("4-0-0-a", 0)] }) := rfl
  have kx : VarRef.toKey ⟨⟨.identifier "x", 2, 4, 5⟩, "x"⟩ = "2-4-5-x" := rfl
  have kA : VarRef.toKey ⟨⟨.identifier "A", 3, 0, 0⟩, "A"⟩ = "3-0-0-A" := rfl
  have ka : VarRef.toKey ⟨⟨.identifier "a", 4, 0, 0⟩, "a"⟩ = "4-0-0-a" := rfl
  have o1 : toString (1 : Int) = "1" := rfl
  refine ⟨rfl, rfl, ?_, ?_⟩
  · simp only [runCode, hres]
    simp [kx, kA, ka, c1ClassProgram, interpret, interpretLoop, execStmt, evalExpr,
      collectArgs, funcCall, classCall, classMembers, classNew, whileLoop,
      executeBlock, lookupVariable, instanceGet, instanceSet, captureValue,
      ofExceptV, bindParams, willReturn, willBreak, willContinue, enterCall,
      exitCall, throwRt, defineOrUpdateAt, allocEnv, allocInstance, instanceAt,
      frameAt, envGet, getAt?, ancestor?, ancestorLoop, getDeep, getDeepGo,
      assignAt, getAtM, ancestorM, alistGet, alistInsert, Value.ofLit,
      Value.toBool, valueToString, applyBinary, ClassD.findMethod, Func.bind,
      Instance.getSuper, ClassD.name, ClassD.properties, ClassD.methods,
      ClassD.superclass, Func.toName, initState, bind, EStateM.bind, pure, EStateM.pure,
      get, getThe, MonadStateOf.get, EStateM.get, set, EStateM.set, modify,
      modifyGet, MonadStateOf.modifyGet, EStateM.modifyGet, throw, throwThe,
      MonadExceptOf.throw, EStateM.throw]
  · simp [kx, kA, ka, o1, interpOutput, c1ClassProgram, interpret, interpretLoop, execStmt, evalExpr,
      collectArgs, funcCall, classCall, classMembers, classNew, whileLoop,
      executeBlock, lookupVariable, instanceGet, instanceSet, captureValue,
      ofExceptV, bindParams, willReturn, willBreak, willContinue, enterCall,
      exitCall, throwRt, defineOrUpdateAt, allocEnv, allocInstance, instanceAt,
      frameAt, envGet, getAt?, ancestor?, ancestorLoop, getDeep, getDeepGo,
      assignAt, getAtM, ancestorM, alistGet, alistInsert, Value.ofLit,
      Value.toBool, valueToString, applyBinary, ClassD.findMethod, Func.bind,
      Instance.getSuper, ClassD.name, ClassD.properties, ClassD.methods,
      ClassD.superclass, Func.toName, initState, bind, EStateM.bind, pure, EStateM.pure,
      get, getThe, MonadStateOf.get, EStateM.get, set, EStateM.set, modify,
      modifyGet, MonadStateOf.modifyGet, EStateM.modifyGet, throw, throwThe,
      MonadExceptOf.throw, EStateM.throw]

/-- Witness for the amended C1 theorem on a one-frame chain aligned with
a one-scope resolver chain: the recorded distance 0 reads the binding in
that frame. -/
theorem c1_distance_equals_frame_separation_when_aligned_witness :
    getAt? [⟨[("x", .num 7)], none⟩] 0 "x" 0
      = some (envGet [⟨[("x", .num 7)], none⟩] 0 "x") ∧
    (envGet [⟨[("x", .num 7)], none⟩] 0 "x").isSome = true := by
  have h := c1_distance_equals_frame_separation_when_aligned.1
    [⟨[("x", .num 7)], none⟩] 0 [0] [[("x", true)]] "x" 0
    (.base 0 rfl)
    (by
      refine List.Forall₂.cons ?_ List.Forall₂.nil
      intro k
      by_cases hk : "x" = k <;> simp [alistGet, envGet, frameAt, hk])
    rfl
  exact ⟨h.2.1, h.2.2.1⟩

end LoxRs
